import Mathlib

/-!
Verification of the suno-max-pro prompt-construction pipeline.

The development shallowly embeds the Python module `suno_expert.py`:
pure string manipulation is translated to functions on `List Char`,
each `re.sub` pass becomes an application of a generic left-to-right
substitution engine `reSubF` instantiated with an attempt function that
mirrors the specific regular expression, stateful orchestration becomes
explicit data flow, exceptions become `Except`, and the single network
call is an oracle parameter together with a call counter.

Modelling conventions (divergences from CPython noted):
* `str.strip`, `\s`, `\w` are modelled over the ASCII range
  (space, tab, newline, carriage return, vertical tab, form feed for
  whitespace; letters, digits, underscore for word characters);
  non-ASCII word characters and whitespace are not modelled.
* `str.lower` / `str.upper` are modelled for ASCII letters only.
* `json.loads` is modelled by `jsonParse`, a strict JSON parser;
  surrogate-pair combination in `\u` escapes is not modelled.
-/

set_option maxHeartbeats 1000000
set_option maxRecDepth 100000
set_option linter.unusedVariables false

namespace Suno

/-! ## Character utilities (Python semantics, ASCII fragment) -/

def pyLowerC (c : Char) : Char :=
  if 'A' ≤ c ∧ c ≤ 'Z' then Char.ofNat (c.toNat + 32) else c

def pyUpperC (c : Char) : Char :=
  if 'a' ≤ c ∧ c ≤ 'z' then Char.ofNat (c.toNat - 32) else c

def isPySpace (c : Char) : Bool :=
  c = ' ' || c = '\t' || c = '\n' || c = '\x0d' || c = '\x0b' || c = '\x0c'

def isWordChar (c : Char) : Bool :=
  ('a' ≤ c && c ≤ 'z') || ('A' ≤ c && c ≤ 'Z') || ('0' ≤ c && c ≤ '9') || c = '_'

/-- Word-character test on an optional character; `none` (text edge) counts
as a non-word position, as in Python `\b` semantics. -/
def isWordOpt : Option Char → Bool
  | none => false
  | some c => isWordChar c

def pyLowerL (xs : List Char) : List Char := xs.map pyLowerC

def pyStripL : List Char → List Char
  | [] => []
  | c :: cs => if isPySpace c then pyStripL cs else c :: cs

def pyStripList (xs : List Char) : List Char :=
  (pyStripL ((pyStripL xs.reverse)).reverse)

/-- Python `str.strip()` (ASCII whitespace). -/
def pyStrip (s : String) : String :=
  String.mk (pyStripList s.data)

/-- Python `str.strip(chars)`: remove leading and trailing characters drawn
from `chars`. -/
def pyStripCharsL (chars : List Char) : List Char → List Char
  | [] => []
  | c :: cs => if chars.contains c then pyStripCharsL chars cs else c :: cs

def pyStripChars (chars : List Char) (xs : List Char) : List Char :=
  ((pyStripCharsL chars ((pyStripCharsL chars xs.reverse)).reverse))

def pyLower (s : String) : String := String.mk (pyLowerL s.data)

def pyUpper (s : String) : String := String.mk (s.data.map pyUpperC)

/-- `a.isPrefixOfCI b`: case-insensitive (resp. sensitive) literal match of
`pat` against the front of `xs`. -/
def matchesLit (ci : Bool) : List Char → List Char → Bool
  | [], _ => true
  | _ :: _, [] => false
  | a :: as, b :: bs =>
    (if ci then pyLowerC a = pyLowerC b else a = b) && matchesLit ci as bs

/-- Is `needle` a (contiguous) substring of `hay`?  Mirrors Python `in`
on strings; the empty needle is a substring of everything. -/
def substrOfL (needle hay : List Char) : Bool :=
  match hay with
  | [] => matchesLit false needle []
  | _ :: tl => matchesLit false needle hay || substrOfL needle tl

def substrOf (needle hay : String) : Bool := substrOfL needle.data hay.data

def countWs (xs : List Char) : Nat := (xs.takeWhile isPySpace).length

def countRun (c : Char) (xs : List Char) : Nat :=
  (xs.takeWhile (fun d => d = c)).length

/-! ## The substitution engine

`reSubF att fuel prev xs` models `re.sub` scanning `xs` left to right.
At each position the attempt function `att` receives the previous
original character (for word boundaries) and the remaining text; on
`some (rep, n)` the match consumed `n ≥ 1` characters which are replaced
by `rep`, and scanning resumes after the match (the replacement is never
rescanned, as in Python).  `fuel` only serves termination; every caller
passes the length of the scanned text, which suffices because every
match consumes at least one character. -/

abbrev ReAtt := Option Char → List Char → Option (List Char × Nat)

def reSubF (att : ReAtt) : Nat → Option Char → List Char → List Char
  | 0, _, xs => xs
  | _ + 1, _, [] => []
  | f + 1, p, c :: cs =>
    match att p (c :: cs) with
    | some (rep, n) =>
      let m := n - 1
      rep ++ reSubF att f ((c :: cs)[m]?) (List.drop m cs)
    | none => c :: reSubF att f (some c) cs

def pyReSub (att : ReAtt) (xs : List Char) : List Char :=
  reSubF att xs.length none xs

/-! ## Attempt functions, one per regular expression of `validate_suno_tags` -/

/-- Index of the first occurrence of `pat` in the text, if any. -/
def findSub (pat : List Char) : List Char → Option Nat
  | [] => if matchesLit false pat [] then some 0 else none
  | c :: cs =>
    if matchesLit false pat (c :: cs) then some 0
    else (findSub pat cs).map (· + 1)

/-- `re.sub(r'```.*?```', '', text, flags=re.DOTALL)`: a fenced block is the
opening delimiter, a lazily matched span (newlines included), and the next
closing delimiter. -/
def attCodeBlock : ReAtt := fun _ xs =>
  if matchesLit false "```".data xs then
    match findSub "```".data (xs.drop 3) with
    | some i => some ([], 3 + i + 3)
    | none => none
  else none

/-- `re.sub(r'\*{2,}', '', text)`: a run of two or more asterisks. -/
def attBold : ReAtt := fun _ xs =>
  let r := countRun '*' xs
  if 2 ≤ r then some ([], r) else none

/-- First group of the energy-conflict pattern,
`High\s*Energy|Energetic|Upbeat`, case-insensitively; returns the number of
characters consumed.  `\s*` may span newlines. -/
def matchA (xs : List Char) : Option Nat :=
  if matchesLit true "high".data xs then
    let rest := xs.drop 4
    let w := countWs rest
    if matchesLit true "energy".data (rest.drop w) then some (4 + w + 6) else none
  else if matchesLit true "energetic".data xs then some 9
  else if matchesLit true "upbeat".data xs then some 6
  else none

/-- Second group of the energy-conflict pattern,
`Chill|Relaxed|Ambient`, case-insensitively. -/
def matchB (xs : List Char) : Option Nat :=
  if matchesLit true "chill".data xs then some 5
  else if matchesLit true "relaxed".data xs then some 7
  else if matchesLit true "ambient".data xs then some 7
  else none

/-- Greedy search for the last start of a `B` keyword preceded by a word
boundary; the search stops at the first newline because `.` does not match
newlines.  `prev` is the character immediately before the current position.
Returns the offset of the keyword and its length. -/
def lastBGo : Char → List Char → Nat → Option (Nat × Nat) → Option (Nat × Nat)
  | _, [], _, best => best
  | prev, c :: cs, i, best =>
    if c = '\n' then best
    else
      let best' :=
        match matchB (c :: cs) with
        | some n => if isWordChar prev then best else some (i, n)
        | none => best
      lastBGo c cs (i + 1) best'

/-- Greedy search for the last start of an `A` keyword with word boundaries
on both sides (the second alternative of the energy pattern carries a
trailing `\b`); stops at the first newline. -/
def lastAGo : Char → List Char → Nat → Option (Nat × Nat) → Option (Nat × Nat)
  | _, [], _, best => best
  | prev, c :: cs, i, best =>
    if c = '\n' then best
    else
      let best' :=
        match matchA (c :: cs) with
        | some n =>
          if isWordChar prev then best
          else if isWordOpt ((c :: cs)[n]?) then best
          else some (i, n)
        | none => best
      lastAGo c cs (i + 1) best'

/-- `re.sub(r'\b(High\s*Energy|Energetic|Upbeat).*\b(Chill|Relaxed|Ambient)`
`|\b(Chill|Relaxed|Ambient).*\b(High\s*Energy|Energetic|Upbeat)\b',`
`'Medium Energy', text, flags=re.I)`.  The first alternative is tried first;
the two keyword groups start with disjoint letters, so at a given position
at most one alternative can begin. -/
def attEnergy : ReAtt := fun p xs =>
  if isWordOpt p then none
  else
    match matchA xs with
    | some aLen =>
      match xs[aLen - 1]? with
      | none => none
      | some lastA =>
        match lastBGo lastA (xs.drop aLen) 0 none with
        | some (off, bLen) => some ("Medium Energy".data, aLen + off + bLen)
        | none => none
    | none =>
      match matchB xs with
      | some bLen =>
        match xs[bLen - 1]? with
        | none => none
        | some lastB =>
          match lastAGo lastB (xs.drop bLen) 0 none with
          | some (off, aLen) => some ("Medium Energy".data, bLen + off + aLen)
          | none => none
      | none => none

/-- A literal bracket-tag pattern: `\[pat\]` replaced by `rep`,
case-insensitively when `ci` is set. -/
def attLit (ci : Bool) (pat rep : List Char) : ReAtt := fun _ xs =>
  if matchesLit ci pat xs then some (rep, pat.length) else none

/-- Greedy repetition count of `(\s*\[group\])+` (backreference, case
sensitive); returns the total number of characters consumed. -/
def dupReps (group : List Char) : Nat → List Char → Nat
  | 0, _ => 0
  | f + 1, xs =>
    let w := countWs xs
    let pat := '[' :: group ++ [']']
    if matchesLit false pat (xs.drop w) then
      let k := w + pat.length
      k + dupReps group f (xs.drop k)
    else 0

/-- `re.sub(r'\[([^\]]+)\](\s*\[\1\])+', r'[\1]', text)`: collapse repeated
consecutive identical tags.  The group is the maximal run of
non-`]` characters, which is the only possible parse. -/
def attDup : ReAtt := fun _ xs =>
  match xs with
  | '[' :: rest =>
    let group := rest.takeWhile (fun c => c ≠ ']')
    if group.isEmpty then none
    else
      match (rest.drop group.length).head? with
      | some ']' =>
        let after := rest.drop (group.length + 1)
        let reps := dupReps group after.length after
        if reps = 0 then none
        else some ('[' :: group ++ [']'], 1 + group.length + 1 + reps)
      | _ => none
  | _ => none

/-- `re.sub(r'\]\[', '] [', text)`. -/
def attSpacing : ReAtt := fun _ xs =>
  match xs with
  | ']' :: '[' :: _ => some ("] [".data, 2)
  | _ => none

/-- `re.sub(r'\[\s*\]', '', text)`: remove empty tags. -/
def attEmptyTag : ReAtt := fun _ xs =>
  match xs with
  | '[' :: rest =>
    let w := countWs rest
    match rest[w]? with
    | some ']' => some ([], w + 2)
    | _ => none
  | _ => none

/-- `re.sub(r'\n{3,}', '\n\n', text)`. -/
def attNl : ReAtt := fun _ xs =>
  let r := countRun '\n' xs
  if 3 ≤ r then some ("\n\n".data, r) else none

/-! ## The tag vocabulary (src/suno_expert.py lines 15-27) -/

def SUNO_STRUCTURE : List String :=
  ["Intro", "Verse", "Pre-Chorus", "Chorus", "Post-Chorus", "Bridge", "Outro",
   "Hook", "Break", "Drop", "Buildup", "Fade Out", "Instrumental", "Solo"]

def SUNO_VOCALS : List String :=
  ["Male Vocal", "Female Vocal", "Duet", "Choir", "Whisper", "Spoken Word",
   "Rap", "Falsetto", "Belting", "Growl", "Harmonies", "Ad-libs",
   "Background Vocals"]

def SUNO_DELIVERY : List String :=
  ["Soft", "Powerful", "Breathy", "Clear", "Gritty", "Smooth", "Aggressive",
   "Emotional", "Detached", "Intimate"]

def SUNO_EFFECTS : List String :=
  ["Reverb", "Delay", "AutoTune", "No AutoTune", "Distortion", "Compression",
   "Wide Stereo", "Centered", "Panned Left", "Panned Right"]

def MAX_MODE_TAGS : String :=
  "[Is_MAX_MODE: MAX]\n[QUALITY: MASTERING_GRADE]\n[REALISM: STUDIO_RECORDING]\n[REAL_INSTRUMENTS: TRUE]\n[AUDIO_SPEC: 24-bit_96kHz_WIDE_STEREO]\n[PRODUCTION: PROFESSIONAL_MIX]"

/-! ## `validate_suno_tags` (src/suno_expert.py lines 63-97) -/

def isStray (c : Char) : Bool :=
  c = '\x7b' || c = '\x7d' || c = '\"' || c = '\\'

/-- `re.sub(r'[\{\}\"\\]', '', text)`. -/
def stripStrayL (xs : List Char) : List Char := xs.filter (fun c => !isStray c)

/-- One iteration of the structure-tag loop: a case-insensitive pass on the
lower-cased tag followed by a case-sensitive pass on the upper-cased tag. -/
def structPass (tag : String) (xs : List Char) : List Char :=
  let t := tag.data
  let xs1 := pyReSub (attLit true ('[' :: pyLowerL t ++ [']']) ('[' :: t ++ [']'])) xs
  pyReSub (attLit false ('[' :: t.map pyUpperC ++ [']']) ('[' :: t ++ [']'])) xs1

/-- One iteration of the vocal/delivery/effects loop. -/
def vocalPass (tag : String) (xs : List Char) : List Char :=
  pyReSub (attLit true ('[' :: pyLowerL tag.data ++ [']']) ('[' :: tag.data ++ [']'])) xs

def validateL (xs : List Char) : List Char :=
  let t1 := stripStrayL xs
  let t2 := pyReSub attCodeBlock t1
  let t3 := pyReSub attBold t2
  let t4 := pyReSub attEnergy t3
  let t5 := SUNO_STRUCTURE.foldl (fun acc tag => structPass tag acc) t4
  let t6 := (SUNO_VOCALS ++ SUNO_DELIVERY ++ SUNO_EFFECTS).foldl
    (fun acc tag => vocalPass tag acc) t5
  let t7 := pyReSub attDup t6
  let t8 := pyReSub attSpacing t7
  let t9 := pyReSub attEmptyTag t8
  let t10 := pyReSub attNl t9
  pyStripList t10

def validate_suno_tags (s : String) : String :=
  if s = "" then s else String.mk (validateL s.data)

/-! ## JSON values and a model of `json.loads` -/

inductive JsonVal where
  | jnull
  | jbool (b : Bool)
  | jint (n : Int)
  | jnum (repr : String)
  | jstr (s : String)
  | jarr (elems : List JsonVal)
  | jobj (fields : List (String × JsonVal))

def isDigit (c : Char) : Bool := '0' ≤ c && c ≤ '9'

/-- JSON inter-token whitespace (space, tab, newline, carriage return). -/
def jsonWsL (xs : List Char) : List Char :=
  xs.dropWhile (fun c => c = ' ' || c = '\t' || c = '\n' || c = '\x0d')

def hexVal (c : Char) : Option Nat :=
  if '0' ≤ c ∧ c ≤ '9' then some (c.toNat - 48)
  else if 'a' ≤ c ∧ c ≤ 'f' then some (c.toNat - 87)
  else if 'A' ≤ c ∧ c ≤ 'F' then some (c.toNat - 55)
  else none

/-- JSON string body after the opening quote; handles the escape sequences
accepted by `json.loads` (`\u` surrogate pairs are not combined). -/
def parseJStr : Nat → List Char → Option (List Char × List Char)
  | 0, _ => none
  | f + 1, xs =>
    match xs with
    | [] => none
    | '\"' :: rest => some ([], rest)
    | '\\' :: e :: rest =>
      let simple : Option Char :=
        if e = '\"' then some '\"'
        else if e = '\\' then some '\\'
        else if e = '/' then some '/'
        else if e = 'b' then some '\x08'
        else if e = 'f' then some '\x0c'
        else if e = 'n' then some '\n'
        else if e = 'r' then some '\x0d'
        else if e = 't' then some '\t'
        else none
      match simple with
      | some c =>
        match parseJStr f rest with
        | some (s, r) => some (c :: s, r)
        | none => none
      | none =>
        if e = 'u' then
          match rest with
          | h1 :: h2 :: h3 :: h4 :: r2 =>
            match hexVal h1, hexVal h2, hexVal h3, hexVal h4 with
            | some a, some b, some c, some d =>
              let n := ((a * 16 + b) * 16 + c) * 16 + d
              let ch := if Nat.isValidChar n then Char.ofNat n else Char.ofNat 0xfffd
              match parseJStr f r2 with
              | some (s, r) => some (ch :: s, r)
              | none => none
            | _, _, _, _ => none
          | _ => none
        else none
    | c :: rest =>
      if c.toNat < 32 then none
      else
        match parseJStr f rest with
        | some (s, r) => some (c :: s, r)
        | none => none

def digitsToNat (ds : List Char) : Nat :=
  ds.foldl (fun a c => a * 10 + (c.toNat - 48)) 0

/-- JSON number literal: `-?(0|[1-9][0-9]*)(\.[0-9]+)?([eE][+-]?[0-9]+)?`.
Integral literals become `jint`; anything with a fraction or exponent is
kept as its source text in `jnum` (Python would build a float). -/
def parseNum (xs : List Char) : Option (JsonVal × List Char) :=
  let (neg, xs1) := match xs with
    | '-' :: t => (true, t)
    | _ => (false, xs)
  match xs1.head? with
  | none => none
  | some c =>
    if ¬ isDigit c then none
    else
      let ip := xs1.takeWhile isDigit
      if 1 < ip.length ∧ ip.head? = some '0' then none
      else
        let xs2 := xs1.drop ip.length
        let fracRes : Option (List Char × List Char) :=
          match xs2 with
          | '.' :: t =>
            let fd := t.takeWhile isDigit
            if fd.isEmpty then none else some ('.' :: fd, t.drop fd.length)
          | _ => some ([], xs2)
        match fracRes with
        | none => none
        | some (frac, xs3) =>
          let expRes : Option (List Char × List Char) :=
            match xs3 with
            | e :: t =>
              if e = 'e' ∨ e = 'E' then
                let (sgn, t2) := match t with
                  | s :: t2 => if s = '+' ∨ s = '-' then ([s], t2) else ([], t)
                  | [] => ([], t)
                let ed := t2.takeWhile isDigit
                if ed.isEmpty then none
                else some (e :: sgn ++ ed, t2.drop ed.length)
              else some ([], xs3)
            | [] => some ([], xs3)
          match expRes with
          | none => none
          | some (ex, rest) =>
            let lit := (if neg then ['-'] else []) ++ ip ++ frac ++ ex
            if frac.isEmpty ∧ ex.isEmpty then
              let n : Int := Int.ofNat (digitsToNat ip)
              some (.jint (if neg then -n else n), rest)
            else some (.jnum (String.mk lit), rest)

mutual

def parseVal : Nat → List Char → Option (JsonVal × List Char)
  | 0, _ => none
  | f + 1, xs =>
    let ys := jsonWsL xs
    if matchesLit false "null".data ys then some (.jnull, ys.drop 4)
    else if matchesLit false "true".data ys then some (.jbool true, ys.drop 4)
    else if matchesLit false "false".data ys then some (.jbool false, ys.drop 5)
    else if matchesLit false "NaN".data ys then some (.jnum "NaN", ys.drop 3)
    else if matchesLit false "Infinity".data ys then some (.jnum "Infinity", ys.drop 8)
    else if matchesLit false "-Infinity".data ys then some (.jnum "-Infinity", ys.drop 9)
    else
      match ys with
      | '\"' :: rest =>
        match parseJStr rest.length rest with
        | some (s, r) => some (.jstr (String.mk s), r)
        | none => none
      | '[' :: rest =>
        let r1 := jsonWsL rest
        (match r1 with
         | ']' :: r2 => some (.jarr [], r2)
         | _ =>
           match parseElems f r1 with
           | some (vs, r2) => some (.jarr vs, r2)
           | none => none)
      | '\x7b' :: rest =>
        let r1 := jsonWsL rest
        (match r1 with
         | '\x7d' :: r2 => some (.jobj [], r2)
         | _ =>
           match parseFields f r1 with
           | some (kvs, r2) => some (.jobj kvs, r2)
           | none => none)
      | _ => parseNum ys

def parseElems : Nat → List Char → Option (List JsonVal × List Char)
  | 0, _ => none
  | f + 1, xs =>
    match parseVal f xs with
    | none => none
    | some (v, r) =>
      match jsonWsL r with
      | ',' :: r2 =>
        (match parseElems f r2 with
         | some (vs, r3) => some (v :: vs, r3)
         | none => none)
      | ']' :: r2 => some ([v], r2)
      | _ => none

def parseFields : Nat → List Char → Option (List (String × JsonVal) × List Char)
  | 0, _ => none
  | f + 1, xs =>
    match jsonWsL xs with
    | '\"' :: rest =>
      (match parseJStr rest.length rest with
       | none => none
       | some (k, r) =>
         match jsonWsL r with
         | ':' :: r2 =>
           (match parseVal f r2 with
            | none => none
            | some (v, r3) =>
              match jsonWsL r3 with
              | ',' :: r4 =>
                (match parseFields f r4 with
                 | some (kvs, r5) => some ((String.mk k, v) :: kvs, r5)
                 | none => none)
              | '\x7d' :: r4 => some ([(String.mk k, v)], r4)
              | _ => none)
         | _ => none)
    | _ => none

end

/-- Model of `json.loads`: the whole text must be consumed (up to trailing
whitespace). -/
def jsonParseL (xs : List Char) : Option JsonVal :=
  match parseVal (2 * xs.length + 2) xs with
  | some (v, rest) => if jsonWsL rest = [] then some v else none
  | none => none

/-- Python `dict.get`: with duplicate keys, `json.loads` keeps the last
binding, so lookup takes the last matching entry. -/
def pyDictGet (kvs : List (String × JsonVal)) (key : String) : Option JsonVal :=
  (kvs.reverse.find? (fun kv => kv.1 = key)).map Prod.snd

/-! ## `clean_json_response` (src/suno_expert.py lines 99-149) -/

/-- `re.sub(r'```json\s*', '', text)`. -/
def attMdJson : ReAtt := fun _ xs =>
  if matchesLit false "```json".data xs then
    some ([], 7 + countWs (xs.drop 7))
  else none

/-- `re.sub(r'```\s*', '', text)`. -/
def attMdTick : ReAtt := fun _ xs =>
  if matchesLit false "```".data xs then
    some ([], 3 + countWs (xs.drop 3))
  else none

/-- `re.search(r'\{[\s\S]*\}', text)`: the span from the first `{` to the
last `}`, when the first `{` precedes the last `}`. -/
def braceSpanL (xs : List Char) : Option (List Char) :=
  match findSub ['\x7b'] xs with
  | none => none
  | some i =>
    match findSub ['\x7d'] xs.reverse with
    | none => none
    | some rj =>
      let j := xs.length - 1 - rj
      if i < j then some ((xs.drop i).take (j + 1 - i)) else none

def isQuote (c : Char) : Bool := c = '\"' || c = Char.ofNat 39

/-- Match `["\']?key["\']?\s*[:=]` (case-insensitively) at the front of the
text, returning the remainder after the `:` or `=`.  The optional quotes are
greedy with backtracking, as in Python. -/
def afterKV (key : List Char) (xs : List Char) : Option (List Char) :=
  let step : List Char → Option (List Char) := fun r =>
    let r2 := r.drop (countWs r)
    match r2 with
    | c :: rest => if c = ':' ∨ c = '=' then some rest else none
    | [] => none
  let tryFrom : List Char → Option (List Char) := fun ys =>
    if matchesLit true key ys then
      let r1 := ys.drop key.length
      match r1 with
      | c :: rest =>
        if isQuote c then
          match step rest with
          | some out => some out
          | none => step r1
        else step r1
      | [] => step r1
    else none
  match xs with
  | c :: rest =>
    if isQuote c then
      match tryFrom rest with
      | some out => some out
      | none => tryFrom xs
    else tryFrom xs
  | [] => tryFrom xs

/-- Match `\s*["\']([^"\']+)["\']` at the front of the text and return the
group: the maximal nonempty run of non-quote characters followed by a
closing quote of either kind. -/
def valueAfter (rest : List Char) : Option (List Char) :=
  let r := rest.drop (countWs rest)
  match r with
  | c :: tail =>
    if isQuote c then
      let grp := tail.takeWhile (fun d => !isQuote d)
      if grp.isEmpty then none
      else
        match (tail.drop grp.length).head? with
        | some _ => some grp
        | none => none
    else none
  | [] => none

def kvAt (key : List Char) (xs : List Char) : Option (List Char) :=
  match afterKV key xs with
  | some rest => valueAfter rest
  | none => none

/-- Leftmost search for the title/style field pattern. -/
def searchKV (key : List Char) : List Char → Option (List Char)
  | [] => kvAt key []
  | c :: cs =>
    match kvAt key (c :: cs) with
    | some g => some g
    | none => searchKV key cs

/-- The lazy group of the lyrics pattern `([\s\S]*?)["\']\s*[\},]`: extend
the group minimally until a quote is reached whose following text is
optional whitespace and then `}` or `,`. -/
def lyrGroupGo : Nat → List Char → List Char → Option (List Char)
  | 0, _, _ => none
  | f + 1, acc, xs =>
    match xs with
    | [] => none
    | c :: rest =>
      if isQuote c then
        let r2 := rest.drop (countWs rest)
        match r2.head? with
        | some d =>
          if d = ',' ∨ d = '\x7d' then some acc.reverse
          else lyrGroupGo f (c :: acc) rest
        | none => lyrGroupGo f (c :: acc) rest
      else lyrGroupGo f (c :: acc) rest

/-- Match the lyrics pattern
`["\']?lyrics["\']?\s*[:=]\s*["\']([\s\S]*?)["\']\s*[\},]` at the front. -/
def lyrAt (xs : List Char) : Option (List Char) :=
  match afterKV "lyrics".data xs with
  | some rest =>
    let r := rest.drop (countWs rest)
    (match r with
     | c :: tail =>
       if isQuote c then lyrGroupGo (tail.length + 1) [] tail else none
     | [] => none)
  | none => none

def searchLyr : List Char → Option (List Char)
  | [] => lyrAt []
  | c :: cs =>
    match lyrAt (c :: cs) with
    | some g => some g
    | none => searchLyr cs

/-- `re.split(r'["\']?(?:title|style_prompt)["\']?\s*[:=]', text, flags=re.I)`
keeps only the text after the last non-overlapping match (`parts[-1]`);
returns `none` when the pattern never matches (a single part). -/
def splitKVGo : Nat → List Char → Option (List Char) → Option (List Char)
  | 0, _, best => best
  | f + 1, xs, best =>
    match xs with
    | [] => best
    | _ :: tl =>
      match afterKV "title".data xs with
      | some rest => splitKVGo f rest (some rest)
      | none =>
        match afterKV "style_prompt".data xs with
        | some rest => splitKVGo f rest (some rest)
        | none => splitKVGo f tl best

/-- Characters stripped from the last-resort lyrics text:
`.strip('"\',} ')`. -/
def lastResortStripSet : List Char := ['\"', Char.ofNat 39, ',', '\x7d', ' ']

inductive ParsedData where
  | json (v : JsonVal)
  | fields (title : Option String) (style : Option String) (lyrics : Option String)

inductive CJR where
  | success (data : ParsedData)
  | failure (error : String) (raw : Option String)

/-- Lines 104-107: remove markdown code-block markers, then strip. -/
def cjrPreprocess (text : String) : List Char :=
  pyStripList (pyReSub attMdTick (pyReSub attMdJson text.data))

/-- Line 127-129: extracted (and stripped) title. -/
def tier3Title (t : List Char) : Option String :=
  (searchKV "title".data t).map (fun g => String.mk (pyStripList g))

/-- Lines 132-134: extracted (and stripped) style_prompt. -/
def tier3Style (t : List Char) : Option String :=
  (searchKV "style_prompt".data t).map (fun g => String.mk (pyStripList g))

/-- Lines 137-144: extracted lyrics, falling back to the text after the last
`title`/`style_prompt` key. -/
def tier3Lyrics (t : List Char) : Option String :=
  match searchLyr t with
  | some g => some (String.mk (pyStripList g))
  | none =>
    match splitKVGo (t.length + 1) t none with
    | some suffix => some (String.mk (pyStripChars lastResortStripSet suffix))
    | none => none

def clean_json_response (text : String) : CJR :=
  if text = "" then .failure "Empty response" none
  else
    let t := cjrPreprocess text
    match jsonParseL t with
    | some v => .success (.json v)
    | none =>
      let tier2 : Option JsonVal :=
        match braceSpanL t with
        | some span => jsonParseL span
        | none => none
      match tier2 with
      | some v => .success (.json v)
      | none =>
        if (tier3Lyrics t).isSome ∧ (tier3Title t).isSome then
          .success (.fields (tier3Title t) (tier3Style t) (tier3Lyrics t))
        else .failure "Could not parse required fields from response"
          (some (String.mk (t.take 200)))

/-! ## `generate_style_prompt` (src/suno_expert.py lines 29-39 and 203-236) -/

def ARTIST_STYLE_GUIDE : List (String × String) :=
  [("rosalía", "flamenco-pop, palmas handclaps, reggaeton beats, auto-tuned vocals, spanish guitar, minimalist production, dramatic dynamics"),
   ("daft punk", "french house, filtered disco samples, talkbox vocals, analog synths, sidechain compression, robotic effects, funky basslines"),
   ("the weeknd", "dark r&b, synthwave influences, falsetto vocals, reverb-heavy production, 80s drum machines, atmospheric pads, melancholic mood"),
   ("taylor swift", "pop-country crossover, storytelling lyrics, acoustic guitar foundation, polished production, catchy hooks, emotional vocal delivery"),
   ("kendrick lamar", "conscious hip-hop, jazz samples, complex rhyme schemes, dynamic flow switches, layered vocals, social commentary, experimental production"),
   ("billie eilish", "minimalist pop, whispered vocals, sub-bass drops, ASMR-style production, dark lyrics, intimate recording style, innovative sound design"),
   ("bad bunny", "latin trap, reggaeton dembow, melodic rap, caribbean percussion, auto-tune melodies, party anthems, spanish lyrics"),
   ("hans zimmer", "cinematic orchestral, epic brass swells, hybrid electronic-orchestral, powerful percussion, emotional string arrangements, dramatic dynamics")]

def style_templates : List (String × String) :=
  [("pop", "modern pop, polished production, catchy hooks, synth bass, programmed drums"),
   ("rock", "driving rock, electric guitars, live drums, energetic, powerful vocals"),
   ("hip hop", "boom bap or trap, 808s, rhythmic flow, urban production, confident delivery"),
   ("electronic", "electronic dance, synth leads, four-on-floor beat, energetic drops, festival sound"),
   ("acoustic", "acoustic folk, fingerstyle guitar, warm vocals, intimate recording, organic feel"),
   ("r&b", "smooth r&b, soulful vocals, laid-back groove, warm bass, emotional delivery"),
   ("latin", "latin pop or reggaeton, percussion-driven, rhythmic vocals, vibrant production"),
   ("jazz", "jazz ensemble, upright bass, brushed drums, improvisational, sophisticated harmony")]

def styleFallback : String := "contemporary production, melodic, emotional vocals"

def generate_style_prompt (genre bpm : String)
    (artist_guide : List (String × String)) : String :=
  let genre_clean := pyLower (pyStrip genre)
  let bpm_part := if pyUpper bpm ≠ "AUTO" then ", BPM: " ++ bpm else ""
  match artist_guide.find?
      (fun p => substrOf p.1 genre_clean || substrOf genre_clean p.1) with
  | some p => p.2 ++ bpm_part
  | none =>
    let base :=
      match style_templates.find? (fun p => substrOf p.1 genre_clean) with
      | some p => p.2
      | none => styleFallback
    base ++ bpm_part

/-- The style selection reformulated from the specification's words
("a deterministic genre→template mapping … keyed by substring match on
known genre keywords, with a generic default", matching "by case-insensitive
substring match against known artist keys and genre-template keys"):
the base description alone, before the BPM clause. -/
def styleSpecBase (genre : String) : String :=
  let g := pyLower (pyStrip genre)
  match ARTIST_STYLE_GUIDE.find?
      (fun p => substrOf (pyLower p.1) g || substrOf g (pyLower p.1)) with
  | some p => p.2
  | none =>
    match style_templates.find? (fun p => substrOf (pyLower p.1) g) with
    | some p => p.2
    | none => styleFallback

/-- Specification-side form of the full style text: base description plus a
BPM clause exactly when the upper-cased bpm differs from "AUTO". -/
def style_prompt_spec (genre bpm : String) : String :=
  styleSpecBase genre ++ (if pyUpper bpm = "AUTO" then "" else ", BPM: " ++ bpm)

/-! ## `generate_suno_prompt` (src/suno_expert.py lines 311-375) -/

structure GenConfig where
  genre : Option String := none
  topic : Option String := none
  language : Option String := none
  vocalType : Option String := none
  bpm : Option String := none
  duration : Option String := none

/-- Outcome of the single `requests.post` call made for lyrics generation,
as observed by `generate_with_groq` after its own error handling: either an
error record (rate limit, invalid key, transport exception, malformed
response shape) with its message, or the extracted message content. -/
inductive NetOutcome where
  | fail (msg : String)
  | reply (content : String)

/-- Python exceptions that can escape the orchestrator. -/
inductive PyExn where
  | attributeError
  | typeError
deriving DecidableEq

structure SuccessRec where
  style_prompt : String
  title : String
  lyrics : String
  backend_used : String

inductive GenResult where
  | error (msg : String)
  | ok (r : SuccessRec)

/-- `generate_with_groq(..., is_json=True, api_key=...)`: transport failures
become error records; on success the content is stripped and passed to
`clean_json_response`. -/
def generate_with_groq_json (api_key : String) (net : NetOutcome) : CJR :=
  if api_key = "" then .failure "Groq API key required" none
  else
    match net with
    | .fail msg => .failure msg none
    | .reply content => clean_json_response (pyStrip content)

/-- `content.get("title", "Untitled").strip() or "Untitled"` for a string
value. -/
def titleOr (s : String) : String :=
  let t := pyStrip s
  if t = "" then "Untitled" else t

/-- Lines 357-375: clean the lyrics value, prepend the metadata header when
no `[Style:` substring is present, strip stray characters, and assemble the
success record.  Python values flow through `validate_suno_tags` (which
returns falsy arguments unchanged and applies `re.sub` otherwise, raising
`TypeError` on truthy non-strings), then through the `in` containment test
(which raises `TypeError` on the remaining falsy non-strings — `None`,
`False`, numeric zero — but succeeds on empty lists and dicts, whose
f-string rendering is `[]` and `{}`) and the final f-string formatting. -/
def assembleLyrics (vocal_type genre duration bpm : String)
    (contains : Bool) (body : String) : String :=
  let assembled :=
    if contains then body
    else
      "[Style: " ++ vocal_type ++ " Vocal, " ++ genre ++ "]\n[Duration: " ++
        duration ++ "]\n" ++
        (if pyUpper bpm ≠ "AUTO" then "[BPM: " ++ bpm ++ "]" else "") ++
        "\n\n" ++ body
  String.mk (stripStrayL assembled.data)

def processLyrics (vocal_type genre duration bpm style_prompt title : String)
    (lyrVal : Option JsonVal) : Except PyExn GenResult :=
  let raw : JsonVal := lyrVal.getD (.jstr "")
  let mkResult : Bool → String → Except PyExn GenResult := fun contains body =>
    .ok (.ok
      { style_prompt := validate_suno_tags style_prompt
        title := title
        lyrics := assembleLyrics vocal_type genre duration bpm contains body
        backend_used := "groq" })
  match raw with
  | .jstr s =>
    let cleaned := validate_suno_tags s
    mkResult (substrOf "[Style:" cleaned) cleaned
  | .jarr [] => mkResult false "[]"
  | .jobj [] => mkResult false "\x7b\x7d"
  | _ => .error .typeError

def processContent (vocal_type genre duration bpm style_prompt : String)
    (content : ParsedData) : Except PyExn GenResult :=
  match content with
  | .json (.jobj m) =>
    (match pyDictGet m "title" with
     | none =>
       processLyrics vocal_type genre duration bpm style_prompt "Untitled"
         (pyDictGet m "lyrics")
     | some (.jstr s) =>
       processLyrics vocal_type genre duration bpm style_prompt (titleOr s)
         (pyDictGet m "lyrics")
     | some _ => .error .attributeError)
  | .json _ => .error .attributeError
  | .fields t _ l =>
    let title := match t with
      | some s => titleOr s
      | none => "Untitled"
    processLyrics vocal_type genre duration bpm style_prompt title
      (l.map JsonVal.jstr)

/-- The orchestrator.  `env_key` models `os.getenv("GROQ_API_KEY")`, `net`
the outcome of the single backend call; the second component counts
network calls attempted.  An `Except.error` is an uncaught Python
exception escaping the function. -/
def generate_suno_prompt (env_key : Option String) (config : GenConfig)
    (max_mode : Bool) (vocal_directing : Bool) (net : NetOutcome) :
    Except PyExn GenResult × Nat :=
  let api_key := env_key.getD ""
  if api_key = "" then
    (.ok (.error "GROQ_API_KEY not set in Streamlit Secrets"), 0)
  else
    let genre := pyStrip (config.genre.getD "")
    let topic := pyStrip (config.topic.getD "")
    let vocal_type := config.vocalType.getD "Male"
    let bpm := pyStrip (config.bpm.getD "AUTO")
    let duration := config.duration.getD "2:30min"
    if genre = "" ∨ topic = "" then
      (.ok (.error "Genre and Creative Prompt are required"), 0)
    else
      let style1 := generate_style_prompt genre bpm ARTIST_STYLE_GUIDE
      let style_prompt :=
        if max_mode then MAX_MODE_TAGS ++ "\n" ++ style1 else style1
      let lyrics_result := generate_with_groq_json api_key net
      match lyrics_result with
      | .failure e _ =>
        (.ok (.error ("Lyrics generation failed: " ++ e)), 1)
      | .success content =>
        (processContent vocal_type genre duration bpm style_prompt content, 1)

/-! ## Derived notions used in the statements -/

/-- No stray JSON/markdown character (`{ } " \`) occurs in the text. -/
def noStray (xs : List Char) : Bool := xs.all (fun c => !isStray c)

/-- The style field of a successful generation, if any. -/
def genStyleOf : Except PyExn GenResult × Nat → Option String
  | (Except.ok (.ok r), _) => some r.style_prompt
  | _ => none

/-- A character predicate is preserved by an attempt function when every
replacement it emits (on input satisfying the predicate) also satisfies
it. -/
def PreservesG (att : ReAtt) (g : Char → Bool) : Prop :=
  ∀ p xs rep n, (∀ x ∈ xs, g x = true) → att p xs = some (rep, n) →
    ∀ x ∈ rep, g x = true

def noStrayC (c : Char) : Bool := !isStray c

/-! ### Decidable safety conditions for prefix preservation

`reSubF` leaves a prefix `b` of its input untouched when no match attempt
can start inside `b`.  For each attempt function we give a decidable
condition on `b` (and, where a match attempt can run off the end of `b`
into the unknown tail, a one-character condition `tailOk` on the tail)
under which every in-prefix attempt fails for every tail. -/

/-- The character of the original text just before scanning position `i`
(`p` at the very start). -/
def prevAt (p : Option Char) (b : List Char) (i : Nat) : Option Char :=
  if i = 0 then p else b[i-1]?

/-- One-character condition on the unknown tail: empty, or starting with a
non-whitespace character that is neither `[` nor `]`. -/
def tailOkB : List Char → Bool
  | [] => true
  | c :: _ => !isPySpace c && !(c = '[') && !(c = ']')

/-- The literal `k` provably fails to match at the front of `u ++ r` for
every `r`: some aligned position inside `u` already mismatches. -/
def kwFailsIn (ci : Bool) : List Char → List Char → Bool
  | a :: as, c :: cs =>
    !(if ci then pyLowerC a = pyLowerC c else a = c) || kwFailsIn ci as cs
  | _, _ => false

/-- Start keywords of the energy-conflict pattern. -/
def energyKws : List (List Char) :=
  ["high".data, "energetic".data, "upbeat".data,
   "chill".data, "relaxed".data, "ambient".data]

/-- Every energy-keyword match attempt starting inside `b` fails inside
`b`. -/
def energySafe (b : List Char) : Bool :=
  (List.range b.length).all (fun i =>
    energyKws.all (fun k => kwFailsIn true k (b.drop i)))

/-- Every match attempt of the literal tag pattern starting inside `b`
fails inside `b`. -/
def litSafe (ci : Bool) (pat b : List Char) : Bool :=
  (List.range b.length).all (fun i => kwFailsIn ci pat (b.drop i))

/-- `b` does not contain the character `c`. -/
def charFree (c : Char) (b : List Char) : Bool := !(b.contains c)

/-- Safety of one position for the duplicate-tag pattern (see
`attDup`): the attempt either fails inside `b`, or runs into trailing
whitespace of `b` and is then refuted by `tailOkB`. -/
def dupSafeAt (b : List Char) (i : Nat) : Bool :=
  match b.drop i with
  | '[' :: rest =>
    let group := rest.takeWhile (fun c => c ≠ ']')
    if group.isEmpty then !rest.isEmpty
    else
      if (rest.drop group.length).head? = some ']' then
        let after := rest.drop (group.length + 1)
        let w := countWs after
        if w = after.length then true
        else kwFailsIn false ('[' :: group ++ [']']) (after.drop w)
      else false
  | _ => true

def dupSafe (b : List Char) : Bool :=
  (List.range b.length).all (fun i => dupSafeAt b i)

/-- Safety for `][` spacing: every `]` inside `b` is followed, inside `b`,
by a character other than `[`. -/
def spacingSafe (b : List Char) : Bool :=
  (List.range b.length).all (fun i =>
    !(b[i]? = some ']') || (decide (i + 1 < b.length) && !(b[i+1]? = some '[')))

/-- Safety for empty tags: after every `[` inside `b`, the whitespace run
stops inside `b` at a character other than `]`. -/
def emptySafe (b : List Char) : Bool :=
  (List.range b.length).all (fun i =>
    !(b[i]? = some '[') ||
      (let rest := b.drop (i + 1)
       decide (countWs rest < rest.length) &&
         !(rest[countWs rest]? = some ']')))

/-- Safety for newline collapsing: every newline run inside `b` is shorter
than 3 (with `tailOkB` refuting continuation past the end of `b`). -/
def nlSafe (b : List Char) : Bool :=
  (List.range b.length).all (fun i =>
    !(b[i]? = some '\n') || decide (countRun '\n' (b.drop i) < 3))

/-- Conditions on a style base description under which the block prefix and
the base's head character survive the sanitizer for an arbitrary appended
BPM clause: no stray characters, no backticks or asterisks, no energy
keyword readable at its front, and a head character that cannot start any
bracket-based pattern. -/
def baseSafe (base : String) : Bool :=
  noStray base.data && charFree '`' base.data && charFree '*' base.data &&
  energyKws.all (fun k => kwFailsIn true k base.data) &&
  (match base.data with
   | [] => false
   | c :: _ =>
     !isPySpace c && !(c = '[') && !(c = ']') && !(c = '`') && !(c = '*') &&
       !(pyLowerC c = '[') && !(c = '\n'))

/-- All seventeen base descriptions the style table can produce. -/
def allStyleBases : List String :=
  ARTIST_STYLE_GUIDE.map Prod.snd ++ style_templates.map Prod.snd ++
    [styleFallback]

/-- All safety conditions a sanitizer-survivable prefix must satisfy: no
match of any pass can start inside it (given a well-behaved tail head),
and its own head is not whitespace. -/
def blockSafe (B : List Char) : Bool :=
  noStray B && charFree '`' B && charFree '*' B && energySafe B &&
  SUNO_STRUCTURE.all (fun t =>
    litSafe true ('[' :: pyLowerL t.data ++ [']']) B &&
    litSafe false ('[' :: t.data.map pyUpperC ++ [']']) B) &&
  (SUNO_VOCALS ++ SUNO_DELIVERY ++ SUNO_EFFECTS).all (fun t =>
    litSafe true ('[' :: pyLowerL t.data ++ [']']) B) &&
  dupSafe B && spacingSafe B && emptySafe B && nlSafe B &&
  (match B with
   | [] => true
   | d :: _ => !isPySpace d)

end Suno

namespace Suno

/-! # Theorems -/

/-- **C1** — the claim states that for every request config and every backend
reply `generate_suno_prompt` terminates without an uncaught exception and
returns a pure error record or a pure success record.  The code violates
this: for a well-formed request and the backend reply `"42"` (valid JSON
that is not an object), `json.loads` succeeds, and `content.get("title",
"Untitled")` raises an uncaught `AttributeError` that escapes the
orchestrator.  This theorem evaluates the model at that failing input. -/
theorem C1_nonobject_reply_raises :
    generate_suno_prompt (some "k") { genre := some "pop", topic := some "love" }
      true true (.reply "42") = (Except.error PyExn.attributeError, 1) := rfl

/-- **C3** — the claim states `validate_suno_tags` is idempotent on every
string.  The code violates this on `"[a][ ][a]"`: the first pass removes the
empty tag `[ ]`, leaving `"[a]  [a]"`, and only the second pass collapses the
now-adjacent duplicates to `"[a]"`.  This theorem evaluates the model at that
failing input. -/
theorem C3_validate_not_idempotent_at_bracket_input :
    validate_suno_tags "[a][ ][a]" = "[a]  [a]" ∧
    validate_suno_tags (validate_suno_tags "[a][ ][a]") = "[a]" ∧
    ("[a]  [a]" : String) ≠ "[a]" := ⟨rfl, rfl, by decide⟩

/-- **C9** — bracketed tags that are case variants of an exact vocabulary
entry are rewritten to the vocabulary casing, while non-vocabulary labels
such as `[verse 1]` are untouched. -/
theorem C9_tag_canonicalization :
    validate_suno_tags "[female vocal] [BREATHY] [verse 1]"
      = "[Female Vocal] [Breathy] [verse 1]" := rfl

/-- **C4**, counterexample — the claim says the synthesized `[Style: …]`
header is prepended whenever the sanitized lyrics do not *begin* with a
`[Style: …]` tag.  The code only tests *containment*: for sanitized lyrics
`"hello\n[Style: X]"` (which do not begin with the tag) nothing is
prepended, so the returned lyrics do not begin with the synthesized tag. -/
theorem C4_counterexample :
    (generate_suno_prompt (some "k") { genre := some "pop", topic := some "love" }
        false true
        (.reply "\x7b\"title\": \"T\", \"lyrics\": \"hello\\n[Style: X]\"\x7d")).1
      = Except.ok (GenResult.ok
          { style_prompt := "modern pop, polished production, catchy hooks, synth bass, programmed drums"
            title := "T"
            lyrics := "hello\n[Style: X]"
            backend_used := "groq" }) ∧
    validate_suno_tags "hello\n[Style: X]" = "hello\n[Style: X]" ∧
    matchesLit false "[Style:".data "hello\n[Style: X]".data = false :=
  ⟨rfl, rfl, by decide⟩

/-- **C6**, counterexample — the claim says the regex tier is accepted only
if both the extracted title and lyrics are non-empty.  The code only checks
key presence: on this input the first two tiers fail and the regex tier
accepts an empty lyrics value. -/
theorem C6_counterexample :
    clean_json_response "title = 'T' , lyrics = '' ," =
      CJR.success (.fields (some "T") none (some "")) := rfl

/-- **C7**, counterexample — the claim says every bpm string other than the
literal `"AUTO"` gets a BPM clause.  The code compares `bpm.upper()`, so
`"auto"` (which differs from the literal `"AUTO"`) gets no clause. -/
theorem C7_counterexample :
    ("auto" : String) ≠ "AUTO" ∧
    generate_style_prompt "pop" "auto" ARTIST_STYLE_GUIDE
      = "modern pop, polished production, catchy hooks, synth bass, programmed drums" ∧
    substrOf "BPM" (generate_style_prompt "pop" "auto" ARTIST_STYLE_GUIDE) = false :=
  ⟨by decide, rfl, by decide⟩

/-- **C8**, counterexample — the claim says that with `max_mode = false` the
MAX-mode block does not appear in `style_prompt`.  The user-controlled `bpm`
field flows verbatim into the style text, so supplying the block's text as
the bpm makes it appear even with `max_mode = false`. -/
theorem C8_counterexample :
    (genStyleOf (generate_suno_prompt (some "k")
        { genre := some "pop", topic := some "love", bpm := some MAX_MODE_TAGS }
        false true (.reply "\x7b\"title\": \"T\", \"lyrics\": \"x\"\x7d"))).map
      (fun s => substrOf MAX_MODE_TAGS s) = some true := rfl

/-! ## Helper lemmas -/

theorem find?_congr {α : Type} {p q : α → Bool} (l : List α)
    (h : ∀ a ∈ l, p a = q a) : l.find? p = l.find? q := by
  induction l with
  | nil => rfl
  | cons a l ih =>
    have ha := h a (by simp)
    simp only [List.find?]
    rw [← ha]
    cases hp : p a
    · exact ih (fun x hx => h x (by simp [hx]))
    · rfl

/-- The style text factors as the AUTO-bpm base plus a BPM clause that is
present exactly when the upper-cased bpm differs from `"AUTO"`. -/
theorem gsp_factor (genre bpm : String) (guide : List (String × String)) :
    generate_style_prompt genre bpm guide
      = generate_style_prompt genre "AUTO" guide ++
          (if pyUpper bpm = "AUTO" then "" else ", BPM: " ++ bpm) := by
  unfold generate_style_prompt
  have hAuto : pyUpper "AUTO" = "AUTO" := rfl
  by_cases hb : pyUpper bpm = "AUTO" <;>
    cases hf : guide.find?
      (fun p => substrOf p.1 (pyLower (pyStrip genre)) ||
        substrOf (pyLower (pyStrip genre)) p.1) <;>
      simp [hb, hAuto, hf, String.append_assoc]

/-- `generate_style_prompt` agrees with the specification-side table
lookup `style_prompt_spec`. -/
theorem gsp_eq_spec (genre bpm : String) :
    generate_style_prompt genre bpm ARTIST_STYLE_GUIDE
      = style_prompt_spec genre bpm := by
  have hkeysA : ∀ a ∈ ARTIST_STYLE_GUIDE, pyLower a.1 = a.1 := by decide
  have hkeysT : ∀ a ∈ style_templates, pyLower a.1 = a.1 := by decide
  unfold generate_style_prompt style_prompt_spec styleSpecBase
  have h1 : ARTIST_STYLE_GUIDE.find?
      (fun p => substrOf p.1 (pyLower (pyStrip genre)) ||
        substrOf (pyLower (pyStrip genre)) p.1)
      = ARTIST_STYLE_GUIDE.find?
      (fun p => substrOf (pyLower p.1) (pyLower (pyStrip genre)) ||
        substrOf (pyLower (pyStrip genre)) (pyLower p.1)) := by
    apply find?_congr
    intro a ha
    rw [hkeysA a ha]
  have h2 : style_templates.find?
      (fun p => substrOf p.1 (pyLower (pyStrip genre)))
      = style_templates.find?
      (fun p => substrOf (pyLower p.1) (pyLower (pyStrip genre))) := by
    apply find?_congr
    intro a ha
    rw [hkeysT a ha]
  simp only [h1, h2]
  by_cases hb : pyUpper bpm = "AUTO" <;>
    cases hf : ARTIST_STYLE_GUIDE.find?
      (fun p => substrOf (pyLower p.1) (pyLower (pyStrip genre)) ||
        substrOf (pyLower (pyStrip genre)) (pyLower p.1)) <;>
      simp [hb, hf]

/-- **C7**, amended — the BPM clause is appended exactly when the
*upper-cased* bpm differs from `"AUTO"` (not when the bpm differs from the
literal): the style text is always the AUTO-base followed by the clause
under that condition. -/
theorem C7_amended_bpm_clause (genre bpm : String) :
    generate_style_prompt genre bpm ARTIST_STYLE_GUIDE
      = generate_style_prompt genre "AUTO" ARTIST_STYLE_GUIDE ++
          (if pyUpper bpm = "AUTO" then "" else ", BPM: " ++ bpm) :=
  gsp_factor genre bpm ARTIST_STYLE_GUIDE

/-- **C2** — a request whose genre or topic strips to the empty string
yields an error result and performs zero network calls (the missing-key
error also short-circuits before any call). -/
theorem C2_validation_short_circuits (key : Option String) (cfg : GenConfig)
    (mm vd : Bool) (net : NetOutcome)
    (h : pyStrip (cfg.genre.getD "") = "" ∨ pyStrip (cfg.topic.getD "") = "") :
    ∃ msg, generate_suno_prompt key cfg mm vd net
      = (Except.ok (.error msg), 0) := by
  unfold generate_suno_prompt
  by_cases hk : key.getD "" = ""
  · exact ⟨"GROQ_API_KEY not set in Streamlit Secrets", by simp [hk]⟩
  · exact ⟨"Genre and Creative Prompt are required", by simp [hk, h]⟩

/-- Witness for C2. -/
theorem C2_witness :
    ∃ msg, generate_suno_prompt (some "k")
      { genre := some "  ", topic := some "t" } true true (.reply "x")
      = (Except.ok (.error msg), 0) :=
  C2_validation_short_circuits (some "k")
    { genre := some "  ", topic := some "t" } true true (.reply "x")
    (Or.inl rfl)

/-- Every successful `processLyrics` run yields the sanitized style text,
the given title, the groq marker, and lyrics assembled by
`assembleLyrics`. -/
theorem processLyrics_ok_shape (vt g dur bpm sp tt : String)
    (lv : Option JsonVal) (r : SuccessRec)
    (h : processLyrics vt g dur bpm sp tt lv = .ok (.ok r)) :
    r.style_prompt = validate_suno_tags sp ∧ r.title = tt ∧
    r.backend_used = "groq" ∧
    ∃ contains body, r.lyrics = assembleLyrics vt g dur bpm contains body := by
  simp only [processLyrics] at h
  split at h
  · simp only [Except.ok.injEq, GenResult.ok.injEq] at h
    subst h
    exact ⟨rfl, rfl, rfl, _, _, rfl⟩
  · simp only [Except.ok.injEq, GenResult.ok.injEq] at h
    subst h
    exact ⟨rfl, rfl, rfl, _, _, rfl⟩
  · simp only [Except.ok.injEq, GenResult.ok.injEq] at h
    subst h
    exact ⟨rfl, rfl, rfl, _, _, rfl⟩
  · simp at h

theorem processContent_ok_shape (vt g dur bpm sp : String)
    (content : ParsedData) (r : SuccessRec)
    (h : processContent vt g dur bpm sp content = .ok (.ok r)) :
    ∃ tt lv, processLyrics vt g dur bpm sp tt lv = .ok (.ok r) := by
  unfold processContent at h
  split at h
  · split at h
    · exact ⟨_, _, h⟩
    · exact ⟨_, _, h⟩
    · simp at h
  · simp at h
  · exact ⟨_, _, h⟩

theorem maxWrap_eq (mm : Bool) (s : String) :
    (if mm then MAX_MODE_TAGS ++ "\n" ++ s else s)
      = (if mm then MAX_MODE_TAGS ++ "\n" else "") ++ s := by
  cases mm <;> simp [String.append_assoc]

/-- Every successful generation factors through `processLyrics` applied to
the config-derived fields and the table-driven style text. -/
theorem gen_ok_shape (key : Option String) (cfg : GenConfig) (mm vd : Bool)
    (net : NetOutcome) (r : SuccessRec)
    (h : (generate_suno_prompt key cfg mm vd net).1 = Except.ok (.ok r)) :
    ∃ tt lv, processLyrics (cfg.vocalType.getD "Male")
      (pyStrip (cfg.genre.getD "")) (cfg.duration.getD "2:30min")
      (pyStrip (cfg.bpm.getD "AUTO"))
      ((if mm then MAX_MODE_TAGS ++ "\n" else "") ++
        generate_style_prompt (pyStrip (cfg.genre.getD ""))
          (pyStrip (cfg.bpm.getD "AUTO")) ARTIST_STYLE_GUIDE) tt lv
      = .ok (.ok r) := by
  rw [← maxWrap_eq]
  unfold generate_suno_prompt at h
  by_cases hk : key.getD "" = ""
  · simp [hk] at h
  · simp only [hk, if_false, ite_false] at h
    by_cases hv : pyStrip (cfg.genre.getD "") = "" ∨ pyStrip (cfg.topic.getD "") = ""
    · simp [hv] at h
    · simp only [hv, if_false, ite_false] at h
      cases hcjr : generate_with_groq_json (key.getD "") net with
      | failure e raw =>
        rw [hcjr] at h
        simp at h
      | success content =>
        rw [hcjr] at h
        exact processContent_ok_shape _ _ _ _ _ _ _ h

/-- **C5** — the style text of every success is computed from the request's
genre and bpm alone by the deterministic table lookup (`style_prompt_spec`,
the spec-side reformulation), wrapped by the MAX block when requested and
passed through the sanitizer; in particular it does not depend on the
backend reply, so no backend call is used for the style field. -/
theorem C5_style_from_table (key : Option String) (cfg : GenConfig)
    (mm vd : Bool) (net : NetOutcome) (r : SuccessRec)
    (h : (generate_suno_prompt key cfg mm vd net).1 = Except.ok (.ok r)) :
    r.style_prompt = validate_suno_tags
      ((if mm then MAX_MODE_TAGS ++ "\n" else "") ++
        style_prompt_spec (pyStrip (cfg.genre.getD ""))
          (pyStrip (cfg.bpm.getD "AUTO"))) := by
  obtain ⟨tt, lv, hp⟩ := gen_ok_shape key cfg mm vd net r h
  have hs := (processLyrics_ok_shape _ _ _ _ _ _ _ _ hp).1
  rw [gsp_eq_spec] at hs
  exact hs

/-- Witness for C5. -/
theorem C5_witness :
    ({ style_prompt := "modern pop, polished production, catchy hooks, synth bass, programmed drums"
       title := "Neon Drift"
       lyrics := "[Style: Male Vocal, pop]\n[Duration: 2:30min]\n\n\n[Verse]\nhello"
       backend_used := "groq" } : SuccessRec).style_prompt
      = validate_suno_tags ((if false then MAX_MODE_TAGS ++ "\n" else "") ++
          style_prompt_spec (pyStrip "pop") (pyStrip "AUTO")) :=
  C5_style_from_table (some "k") { genre := some "pop", topic := some "love" }
    false true
    (.reply "\x7b\"title\": \"Neon Drift\", \"lyrics\": \"[Verse]\\nhello\"\x7d")
    _ rfl

/-! ### Characters of sanitizer output -/

/-- If every replacement emitted by the attempt preserves the character
predicate, so does the whole substitution pass. -/
theorem reSubF_mem (att : ReAtt) (g : Char → Bool) (hatt : PreservesG att g) :
    ∀ (f : Nat) (p : Option Char) (xs : List Char), (∀ x ∈ xs, g x = true) →
      ∀ y ∈ reSubF att f p xs, g y = true := by
  intro f
  induction f with
  | zero =>
    intro p xs hx y hy
    rw [reSubF] at hy
    exact hx y hy
  | succ f ih =>
    intro p xs hx y hy
    match xs with
    | [] => rw [reSubF] at hy; simp at hy
    | c :: cs =>
      rw [reSubF] at hy
      cases hatt' : att p (c :: cs) with
      | none =>
        rw [hatt'] at hy
        simp only [List.mem_cons] at hy
        cases hy with
        | inl h => exact h ▸ hx c (by simp)
        | inr h => exact ih (some c) cs (fun x hx' => hx x (by simp [hx'])) y h
      | some pr =>
        obtain ⟨rep, n⟩ := pr
        rw [hatt'] at hy
        simp only [List.mem_append] at hy
        cases hy with
        | inl h => exact hatt p (c :: cs) rep n hx hatt' y h
        | inr h =>
          refine ih _ _ (fun x hx' => hx x ?_) y h
          exact List.mem_cons_of_mem c (List.mem_of_mem_drop hx')

theorem pyReSub_mem (att : ReAtt) (g : Char → Bool) (hatt : PreservesG att g)
    (xs : List Char) (hx : ∀ x ∈ xs, g x = true) :
    ∀ y ∈ pyReSub att xs, g y = true :=
  reSubF_mem att g hatt xs.length none xs hx

theorem mem_pyStripL (xs : List Char) (y : Char) (hy : y ∈ pyStripL xs) :
    y ∈ xs := by
  induction xs with
  | nil => simpa [pyStripL] using hy
  | cons c cs ih =>
    rw [pyStripL] at hy
    by_cases hc : isPySpace c = true
    · simp only [hc, if_true] at hy
      exact List.mem_cons_of_mem c (ih hy)
    · simp only [hc] at hy
      simpa using hy

theorem mem_pyStripList (xs : List Char) (y : Char)
    (hy : y ∈ pyStripList xs) : y ∈ xs := by
  unfold pyStripList at hy
  have h1 : y ∈ pyStripL xs.reverse :=
    List.mem_reverse.mp (mem_pyStripL _ _ hy)
  exact List.mem_reverse.mp (mem_pyStripL _ _ h1)

theorem attCodeBlock_noStray : PreservesG attCodeBlock noStrayC := by
  intro p xs rep n hx ha x hxr
  unfold attCodeBlock at ha
  split at ha
  · split at ha <;> simp_all
  · simp_all

theorem attBold_noStray : PreservesG attBold noStrayC := by
  intro p xs rep n hx ha x hxr
  unfold attBold at ha
  simp only [] at ha
  split at ha <;> simp_all

theorem attEnergy_noStray : PreservesG attEnergy noStrayC := by
  intro p xs rep n hx ha x hxr
  have hrep : rep = "Medium Energy".data := by
    unfold attEnergy at ha
    split at ha
    · simp at ha
    · split at ha
      · split at ha
        · simp at ha
        · split at ha
          · simp only [Option.some.injEq, Prod.mk.injEq] at ha
            exact ha.1.symm
          · simp at ha
      · split at ha
        · split at ha
          · simp at ha
          · split at ha
            · simp only [Option.some.injEq, Prod.mk.injEq] at ha
              exact ha.1.symm
            · simp at ha
        · simp at ha
  exact List.all_eq_true.mp (by decide) x (hrep ▸ hxr)

theorem attLit_pres (ci : Bool) (pat rep : List Char) (g : Char → Bool)
    (hrep : rep.all g = true) : PreservesG (attLit ci pat rep) g := by
  intro p xs rp n hx ha x hxr
  unfold attLit at ha
  split at ha
  · simp only [Option.some.injEq, Prod.mk.injEq] at ha
    exact List.all_eq_true.mp hrep x (ha.1 ▸ hxr)
  · simp at ha

theorem attDup_noStray : PreservesG attDup noStrayC := by
  intro p xs rep n hx ha x hxr
  unfold attDup at ha
  simp only [] at ha
  split at ha
  case h_2 => simp at ha
  case h_1 rest =>
    split at ha
    · simp at ha
    · split at ha
      case h_2 => simp at ha
      case h_1 =>
        split at ha
        · simp at ha
        · simp only [Option.some.injEq, Prod.mk.injEq] at ha
          rw [← ha.1] at hxr
          simp only [List.mem_cons, List.mem_append, List.mem_singleton] at hxr
          rcases hxr with (h | h) | (h | h)
          · subst h; decide
          · have hrest : x ∈ rest := (List.takeWhile_sublist _).subset h
            exact hx x (List.mem_cons_of_mem _ hrest)
          · subst h; decide
          · simp at h

theorem attSpacing_noStray : PreservesG attSpacing noStrayC := by
  intro p xs rep n hx ha x hxr
  unfold attSpacing at ha
  split at ha
  · simp only [Option.some.injEq, Prod.mk.injEq] at ha
    exact List.all_eq_true.mp (by decide) x (ha.1 ▸ hxr)
  · simp at ha

theorem attEmptyTag_noStray : PreservesG attEmptyTag noStrayC := by
  intro p xs rep n hx ha x hxr
  unfold attEmptyTag at ha
  simp only [] at ha
  split at ha
  case h_2 => simp at ha
  case h_1 =>
    split at ha <;> simp_all

theorem attNl_noStray : PreservesG attNl noStrayC := by
  intro p xs rep n hx ha x hxr
  unfold attNl at ha
  simp only [] at ha
  split at ha
  · simp only [Option.some.injEq, Prod.mk.injEq] at ha
    exact List.all_eq_true.mp (by decide) x (ha.1 ▸ hxr)
  · simp at ha

theorem structPass_noStray (t : String)
    (ht : ('[' :: t.data ++ [']']).all noStrayC = true)
    (acc : List Char) (hacc : ∀ y ∈ acc, noStrayC y = true) :
    ∀ y ∈ structPass t acc, noStrayC y = true := by
  unfold structPass
  refine pyReSub_mem _ _ (attLit_pres _ _ _ _ ht) _ ?_
  exact pyReSub_mem _ _ (attLit_pres _ _ _ _ ht) _ hacc

theorem vocalPass_noStray (t : String)
    (ht : ('[' :: t.data ++ [']']).all noStrayC = true)
    (acc : List Char) (hacc : ∀ y ∈ acc, noStrayC y = true) :
    ∀ y ∈ vocalPass t acc, noStrayC y = true := by
  unfold vocalPass
  exact pyReSub_mem _ _ (attLit_pres _ _ _ _ ht) _ hacc

theorem foldl_structPass_noStray (tags : List String)
    (htags : ∀ t ∈ tags, ('[' :: t.data ++ [']']).all noStrayC = true) :
    ∀ (acc : List Char), (∀ y ∈ acc, noStrayC y = true) →
      ∀ y ∈ tags.foldl (fun a t => structPass t a) acc, noStrayC y = true := by
  induction tags with
  | nil => intro acc hacc y hy; exact hacc y hy
  | cons t ts ih =>
    intro acc hacc y hy
    exact ih (fun u hu => htags u (by simp [hu])) _
      (structPass_noStray t (htags t (by simp)) acc hacc) y hy

theorem foldl_vocalPass_noStray (tags : List String)
    (htags : ∀ t ∈ tags, ('[' :: t.data ++ [']']).all noStrayC = true) :
    ∀ (acc : List Char), (∀ y ∈ acc, noStrayC y = true) →
      ∀ y ∈ tags.foldl (fun a t => vocalPass t a) acc, noStrayC y = true := by
  induction tags with
  | nil => intro acc hacc y hy; exact hacc y hy
  | cons t ts ih =>
    intro acc hacc y hy
    exact ih (fun u hu => htags u (by simp [hu])) _
      (vocalPass_noStray t (htags t (by simp)) acc hacc) y hy

/-- The sanitizer's output never contains a stray character: the first pass
filters them out and no later pass can introduce one. -/
theorem validateL_noStray (xs : List Char) :
    ∀ y ∈ validateL xs, noStrayC y = true := by
  unfold validateL
  intro y hy
  have h1 : ∀ y ∈ stripStrayL xs, noStrayC y = true := by
    intro z hz
    exact (List.mem_filter.mp hz).2
  have h2 := pyReSub_mem _ _ attCodeBlock_noStray _ h1
  have h3 := pyReSub_mem _ _ attBold_noStray _ h2
  have h4 := pyReSub_mem _ _ attEnergy_noStray _ h3
  have h5 := foldl_structPass_noStray SUNO_STRUCTURE (by decide) _ h4
  have h6 := foldl_vocalPass_noStray (SUNO_VOCALS ++ SUNO_DELIVERY ++ SUNO_EFFECTS)
    (by decide) _ h5
  have h7 := pyReSub_mem _ _ attDup_noStray _ h6
  have h8 := pyReSub_mem _ _ attSpacing_noStray _ h7
  have h9 := pyReSub_mem _ _ attEmptyTag_noStray _ h8
  have h10 := pyReSub_mem _ _ attNl_noStray _ h9
  exact h10 y (mem_pyStripList _ _ hy)

/-- String-level form: `validate_suno_tags` output has no stray
characters. -/
theorem validate_suno_tags_noStray (s : String) :
    noStray (validate_suno_tags s).data = true := by
  unfold validate_suno_tags
  by_cases hs : s = ""
  · subst hs; decide
  · simp only [hs, if_false, ite_false]
    exact List.all_eq_true.mpr (validateL_noStray s.data)

theorem mk_append_mk (a b : List Char) :
    String.mk (a ++ b) = String.mk a ++ String.mk b := rfl

theorem mk_data_eq (s : String) : String.mk s.data = s := rfl

theorem stripStrayL_validate (s : String) :
    stripStrayL (validate_suno_tags s).data = (validate_suno_tags s).data :=
  List.filter_eq_self.mpr
    (fun a ha => List.all_eq_true.mp (validate_suno_tags_noStray s) a ha)

theorem stripStray_mk_append (a b : String)
    (hb : stripStrayL b.data = b.data) :
    String.mk (stripStrayL (a ++ b).data)
      = String.mk (stripStrayL a.data) ++ b := by
  have h1 : (a ++ b).data = a.data ++ b.data := String.data_append a b
  have h2 : stripStrayL (a.data ++ b.data)
      = stripStrayL a.data ++ stripStrayL b.data := by
    simp [stripStrayL]
  rw [h1, h2, hb, mk_append_mk, mk_data_eq]

theorem assembleLyrics_false (vt g dur bpm body : String) :
    assembleLyrics vt g dur bpm false body
      = String.mk (stripStrayL (("[Style: " ++ vt ++ " Vocal, " ++ g ++
          "]\n[Duration: " ++ dur ++ "]\n" ++
          (if pyUpper bpm ≠ "AUTO" then "[BPM: " ++ bpm ++ "]" else "") ++
          "\n\n" ++ body).data)) := rfl

theorem assembleLyrics_true (vt g dur bpm body : String) :
    assembleLyrics vt g dur bpm true body
      = String.mk (stripStrayL body.data) := rfl

/-- **C10** — both artifact strings of every success are free of the stray
characters `{ } " \`: the lyrics get a final stray strip after the header
prepend, and the style text goes through the sanitizer whose own first pass
strips them and whose later passes never reintroduce them. -/
theorem C10_success_has_no_stray_chars (key : Option String) (cfg : GenConfig)
    (mm vd : Bool) (net : NetOutcome) (r : SuccessRec)
    (h : (generate_suno_prompt key cfg mm vd net).1 = Except.ok (.ok r)) :
    noStray r.style_prompt.data = true ∧ noStray r.lyrics.data = true := by
  obtain ⟨tt, lv, hp⟩ := gen_ok_shape key cfg mm vd net r h
  obtain ⟨hs, -, -, contains, body, hl⟩ :=
    processLyrics_ok_shape _ _ _ _ _ _ _ _ hp
  constructor
  · rw [hs]
    exact validate_suno_tags_noStray _
  · rw [hl]
    unfold assembleLyrics noStray
    apply List.all_eq_true.mpr
    intro y hy
    exact (List.mem_filter.mp hy).2

/-- Witness for C10. -/
theorem C10_witness :
    noStray ({ style_prompt := "modern pop, polished production, catchy hooks, synth bass, programmed drums"
               title := "Neon Drift"
               lyrics := "[Style: Male Vocal, pop]\n[Duration: 2:30min]\n\n\n[Verse]\nhello"
               backend_used := "groq" } : SuccessRec).style_prompt.data = true ∧
    noStray ({ style_prompt := "modern pop, polished production, catchy hooks, synth bass, programmed drums"
               title := "Neon Drift"
               lyrics := "[Style: Male Vocal, pop]\n[Duration: 2:30min]\n\n\n[Verse]\nhello"
               backend_used := "groq" } : SuccessRec).lyrics.data = true :=
  C10_success_has_no_stray_chars (some "k")
    { genre := some "pop", topic := some "love" } false false
    (.reply "\x7b\"title\": \"Neon Drift\", \"lyrics\": \"[Verse]\\nhello\"\x7d")
    _ rfl

/-- **C4**, amended — the header prepend is gated on *containment* of
`"[Style:"` in the sanitized lyrics, not on the lyrics beginning with it:
when absent, the returned lyrics are the stray-stripped synthesized header
(`[Style: …]`, then `[Duration: …]`, then `[BPM: …]` exactly when the
upper-cased bpm differs from `"AUTO"`) followed by the sanitized lyrics;
when present anywhere, nothing is prepended. -/
theorem C4_amended_contains_gate (vt g dur bpm sp tt s : String)
    (r : SuccessRec)
    (h : processLyrics vt g dur bpm sp tt (some (.jstr s)) = .ok (.ok r)) :
    (substrOf "[Style:" (validate_suno_tags s) = false →
      r.lyrics = String.mk (stripStrayL ("[Style: " ++ vt ++ " Vocal, " ++ g ++
          "]\n[Duration: " ++ dur ++ "]\n" ++
          (if pyUpper bpm ≠ "AUTO" then "[BPM: " ++ bpm ++ "]" else "") ++
          "\n\n").data) ++ validate_suno_tags s) ∧
    (substrOf "[Style:" (validate_suno_tags s) = true →
      r.lyrics = validate_suno_tags s) := by
  simp only [processLyrics, Option.getD_some] at h
  simp only [Except.ok.injEq, GenResult.ok.injEq] at h
  subst h
  constructor <;> intro hc
  · show assembleLyrics vt g dur bpm (substrOf "[Style:" (validate_suno_tags s))
      (validate_suno_tags s) = _
    rw [hc, assembleLyrics_false]
    exact stripStray_mk_append _ _ (stripStrayL_validate s)
  · show assembleLyrics vt g dur bpm (substrOf "[Style:" (validate_suno_tags s))
      (validate_suno_tags s) = _
    rw [hc, assembleLyrics_true, stripStrayL_validate s, mk_data_eq]

/-- **C6**, amended — `clean_json_response` is a total function into tagged
records (the model of "never raises"); when the strict-parse and
brace-extraction tiers both fail, the regex tier is accepted exactly when
both a title and a lyrics value were *extracted* (key presence — either may
be empty after stripping, which is where the original claim fails); and
when all tiers fail the failure record carries an excerpt of at most 200
characters of the (markdown-stripped) text. -/
theorem C6_amended_tier_structure (s : String) (h0 : s ≠ "")
    (h1 : jsonParseL (cjrPreprocess s) = none)
    (h2 : ∀ span, braceSpanL (cjrPreprocess s) = some span →
      jsonParseL span = none) :
    ((tier3Lyrics (cjrPreprocess s)).isSome ∧
        (tier3Title (cjrPreprocess s)).isSome →
      clean_json_response s = CJR.success (.fields (tier3Title (cjrPreprocess s))
        (tier3Style (cjrPreprocess s)) (tier3Lyrics (cjrPreprocess s)))) ∧
    (¬ ((tier3Lyrics (cjrPreprocess s)).isSome ∧
        (tier3Title (cjrPreprocess s)).isSome) →
      clean_json_response s
        = CJR.failure "Could not parse required fields from response"
            (some (String.mk ((cjrPreprocess s).take 200))) ∧
      ((cjrPreprocess s).take 200).length ≤ 200) := by
  have hlen : ((cjrPreprocess s).take 200).length ≤ 200 := by
    rw [List.length_take]
    exact Nat.min_le_left _ _
  unfold clean_json_response
  simp only [h0, if_false, ite_false, h1]
  cases hb : braceSpanL (cjrPreprocess s) with
  | none =>
    constructor
    · intro hc
      simp [hc]
    · intro hc
      simp [hc, hlen]
  | some span =>
    have hsp := h2 span hb
    simp only [hsp]
    constructor
    · intro hc
      simp [hc]
    · intro hc
      simp [hc, hlen]

/-- Witness for C6 (amended): an input on which every tier fails, giving
the bounded-excerpt failure record. -/
theorem C6_witness :
    clean_json_response "plain prose with no json at all"
      = CJR.failure "Could not parse required fields from response"
          (some (String.mk ((cjrPreprocess "plain prose with no json at all").take 200))) ∧
    ((cjrPreprocess "plain prose with no json at all").take 200).length ≤ 200 :=
  (C6_amended_tier_structure "plain prose with no json at all"
      (by decide) rfl
      (fun span hsp => by
        rw [show braceSpanL (cjrPreprocess "plain prose with no json at all")
            = none from rfl] at hsp
        cases hsp)).2
    (by
      rw [show tier3Title (cjrPreprocess "plain prose with no json at all")
          = none from rfl]
      simp)

/-! ### Prefix preservation through the sanitizer -/

theorem prevAt_cons (p : Option Char) (c : Char) (b : List Char) (i : Nat) :
    prevAt p (c :: b) (i + 1) = prevAt (some c) b i := by
  unfold prevAt
  by_cases hi : i = 0
  · subst hi; simp
  · obtain ⟨j, rfl⟩ : ∃ j, i = j + 1 := ⟨i - 1, by omega⟩
    simp

/-- The substitution engine preserves a prefix inside which every match
attempt fails. -/
theorem reSubF_split (att : ReAtt) :
    ∀ (b : List Char) (f : Nat) (p : Option Char) (r : List Char),
      b.length + r.length ≤ f →
      (∀ i, i < b.length → att (prevAt p b i) (List.drop i b ++ r) = none) →
      reSubF att f p (b ++ r)
        = b ++ reSubF att (f - b.length) (prevAt p b b.length) r := by
  intro b
  induction b with
  | nil =>
    intro f p r hf H
    simp [prevAt]
  | cons c b ih =>
    intro f p r hf H
    cases f with
    | zero => simp only [List.length_cons] at hf; omega
    | succ f =>
      have h0 := H 0 (by simp)
      simp only [prevAt, if_pos rfl, List.drop_zero] at h0
      show reSubF att (f + 1) p (c :: (b ++ r)) = _
      rw [reSubF]
      rw [show att p (c :: (b ++ r)) = none from h0]
      have ih' := ih f (some c) r
        (by simp only [List.length_cons] at hf; omega)
        (fun i hi => by
          have := H (i + 1) (by simpa using Nat.succ_lt_succ hi)
          rwa [prevAt_cons, List.drop_succ_cons] at this)
      rw [ih']
      simp only [List.cons_append, List.length_cons]
      rw [prevAt_cons]
      rw [show f + 1 - (b.length + 1) = f - b.length from by omega]

/-- A mismatch inside `u` refutes the literal match for every
continuation. -/
theorem kwFailsIn_matchesLit (ci : Bool) :
    ∀ (k u r : List Char), kwFailsIn ci k u = true →
      matchesLit ci k (u ++ r) = false := by
  intro k
  induction k with
  | nil => intro u r h; cases u <;> simp [kwFailsIn] at h
  | cons a as ih =>
    intro u r h
    cases u with
    | nil => simp [kwFailsIn] at h
    | cons c cs =>
      rw [kwFailsIn] at h
      rw [List.cons_append, matchesLit]
      rcases Bool.or_eq_true_iff.mp h with hm | hm
      · rw [show (if ci then decide (pyLowerC a = pyLowerC c)
            else decide (a = c)) = false by
            split <;> simp_all]
        simp
      · rw [ih cs r hm]
        simp

/-- A literal match is already decided by a sufficiently long prefix. -/
theorem matchesLit_det (ci : Bool) :
    ∀ (k u v : List Char), k.length ≤ u.length →
      matchesLit ci k (u ++ v) = matchesLit ci k u := by
  intro k
  induction k with
  | nil => intro u v _; simp [matchesLit]
  | cons a as ih =>
    intro u v h
    cases u with
    | nil => simp at h
    | cons c cs =>
      rw [List.cons_append, matchesLit, matchesLit]
      rw [ih cs v (by simpa using h)]

theorem matchesLit_self (k v : List Char) :
    matchesLit false k (k ++ v) = true := by
  induction k with
  | nil => simp [matchesLit]
  | cons a as ih => simp [matchesLit, ih]

theorem matchesLit_nil_of_ne (ci : Bool) (a : Char) (as : List Char) :
    matchesLit ci (a :: as) [] = false := rfl

/-- `takeWhile` over an append is decided inside the first part when the
first part contains a stopping element. -/
theorem takeWhile_append_stop (p : Char → Bool) :
    ∀ (u v : List Char), (u.takeWhile p).length < u.length →
      (u ++ v).takeWhile p = u.takeWhile p := by
  intro u
  induction u with
  | nil => intro v h; simp at h
  | cons c cs ih =>
    intro v h
    by_cases hc : p c = true
    · have h' : (cs.takeWhile p).length < cs.length := by
        simp only [List.takeWhile_cons, hc, if_true, List.length_cons] at h
        omega
      simp [List.takeWhile_cons, hc, ih v h']
    · simp [List.takeWhile_cons, hc]

theorem takeWhile_append_all (p : Char → Bool) :
    ∀ (u v : List Char), u.takeWhile p = u →
      (u ++ v).takeWhile p = u ++ v.takeWhile p := by
  intro u
  induction u with
  | nil => intro v _; simp
  | cons c cs ih =>
    intro v h
    by_cases hc : p c = true
    · have h' : cs.takeWhile p = cs := by
        simpa [List.takeWhile_cons, hc] using h
      simp [List.takeWhile_cons, hc, ih v h']
    · simp [List.takeWhile_cons, hc] at h

theorem countWs_append_stop (u v : List Char) (h : countWs u < u.length) :
    countWs (u ++ v) = countWs u := by
  unfold countWs at h ⊢
  rw [takeWhile_append_stop _ u v h]

theorem countWs_append_all (u v : List Char) (h : countWs u = u.length) :
    countWs (u ++ v) = u.length + countWs v := by
  unfold countWs at h ⊢
  have hall : u.takeWhile isPySpace = u :=
    (List.takeWhile_prefix isPySpace).eq_of_length h
  rw [takeWhile_append_all _ u v hall, List.length_append]

theorem matchesLit_false_head (a c : Char) (as z : List Char) (h : ¬ a = c) :
    matchesLit false (a :: as) (c :: z) = false := by
  simp [matchesLit, h]

theorem countRun_append_stop (c : Char) (u v : List Char)
    (h : countRun c u < u.length) : countRun c (u ++ v) = countRun c u := by
  unfold countRun at h ⊢
  rw [takeWhile_append_stop _ u v h]

theorem countRun_append_all (c : Char) (u v : List Char)
    (h : countRun c u = u.length) :
    countRun c (u ++ v) = u.length + countRun c v := by
  unfold countRun at h ⊢
  have hall : u.takeWhile (fun d => d = c) = u :=
    (List.takeWhile_prefix _).eq_of_length h
  rw [takeWhile_append_all _ u v hall, List.length_append]

theorem countRun_tailOk (r : List Char) (hr : tailOkB r = true) :
    countRun '\n' r = 0 := by
  cases r with
  | nil => rfl
  | cons c w =>
    simp only [tailOkB, Bool.and_eq_true] at hr
    have hc : ¬ c = '\n' := by
      intro he
      subst he
      simp [isPySpace] at hr
    simp [countRun, List.takeWhile_cons, hc]

theorem countWs_tailOk (r : List Char) (hr : tailOkB r = true) :
    countWs r = 0 := by
  cases r with
  | nil => rfl
  | cons c w =>
    simp only [tailOkB, Bool.and_eq_true] at hr
    have hns : isPySpace c = false := by simpa using hr.1.1
    simp [countWs, List.takeWhile_cons, hns]

/-- `drop i b` is a cons for `i < b.length`. -/
theorem drop_cons_of_lt (b : List Char) (i : Nat) (hi : i < b.length) :
    List.drop i b = b[i] :: List.drop (i + 1) b :=
  List.drop_eq_getElem_cons hi

theorem H_of_litSafe (ci : Bool) (pat rep b : List Char)
    (hsafe : litSafe ci pat b = true) (p : Option Char) (r : List Char)
    (i : Nat) (hi : i < b.length) :
    attLit ci pat rep p (List.drop i b ++ r) = none := by
  have hkw : kwFailsIn ci pat (b.drop i) = true :=
    List.all_eq_true.mp hsafe i (List.mem_range.mpr hi)
  unfold attLit
  rw [kwFailsIn_matchesLit ci pat (b.drop i) r hkw]
  simp

theorem attEnergy_none_of_kws (p : Option Char) (u r : List Char)
    (h : energyKws.all (fun k => kwFailsIn true k u) = true) :
    attEnergy p (u ++ r) = none := by
  have hk : ∀ k ∈ energyKws, kwFailsIn true k u = true := List.all_eq_true.mp h
  have h1 := kwFailsIn_matchesLit true "high".data u r
    (hk _ (by simp [energyKws]))
  have h2 := kwFailsIn_matchesLit true "energetic".data u r
    (hk _ (by simp [energyKws]))
  have h3 := kwFailsIn_matchesLit true "upbeat".data u r
    (hk _ (by simp [energyKws]))
  have h4 := kwFailsIn_matchesLit true "chill".data u r
    (hk _ (by simp [energyKws]))
  have h5 := kwFailsIn_matchesLit true "relaxed".data u r
    (hk _ (by simp [energyKws]))
  have h6 := kwFailsIn_matchesLit true "ambient".data u r
    (hk _ (by simp [energyKws]))
  have hA : matchA (u ++ r) = none := by
    unfold matchA
    rw [h1, h2, h3]
    simp
  have hB : matchB (u ++ r) = none := by
    unfold matchB
    rw [h4, h5, h6]
    simp
  unfold attEnergy
  rw [hA, hB]
  simp

theorem H_of_energySafe (b : List Char) (hsafe : energySafe b = true)
    (p : Option Char) (r : List Char) (i : Nat) (hi : i < b.length) :
    attEnergy p (List.drop i b ++ r) = none :=
  attEnergy_none_of_kws p (b.drop i) r
    (List.all_eq_true.mp hsafe i (List.mem_range.mpr hi))

theorem attCodeBlock_none_head (p : Option Char) (c : Char) (w : List Char)
    (hc : ¬ c = '`') : attCodeBlock p (c :: w) = none := by
  unfold attCodeBlock
  rw [show ("```".data : List Char) = '`' :: "``".data from rfl]
  rw [matchesLit_false_head _ _ _ _ (fun h => hc h.symm)]
  simp

theorem H_of_charFree_cb (b : List Char) (hb : charFree '`' b = true)
    (p : Option Char) (r : List Char) (i : Nat) (hi : i < b.length) :
    attCodeBlock p (List.drop i b ++ r) = none := by
  rw [drop_cons_of_lt b i hi, List.cons_append]
  refine attCodeBlock_none_head p _ _ (fun h => ?_)
  have hmem : ('`' : Char) ∈ b := h ▸ List.getElem_mem hi
  simp [charFree] at hb
  exact hb hmem

theorem attBold_none_head (p : Option Char) (c : Char) (w : List Char)
    (hc : ¬ c = '*') : attBold p (c :: w) = none := by
  unfold attBold
  simp [countRun, List.takeWhile_cons, hc]

theorem H_of_charFree_bold (b : List Char) (hb : charFree '*' b = true)
    (p : Option Char) (r : List Char) (i : Nat) (hi : i < b.length) :
    attBold p (List.drop i b ++ r) = none := by
  rw [drop_cons_of_lt b i hi, List.cons_append]
  refine attBold_none_head p _ _ (fun h => ?_)
  have hmem : ('*' : Char) ∈ b := h ▸ List.getElem_mem hi
  simp [charFree] at hb
  exact hb hmem

theorem attSpacing_none_head (p : Option Char) (c : Char) (w : List Char)
    (hc : ¬ c = ']') : attSpacing p (c :: w) = none := by
  unfold attSpacing
  split
  · simp_all
  · rfl

theorem attSpacing_none_snd (p : Option Char) (d : Char) (w : List Char)
    (hd : ¬ d = '[') : attSpacing p (']' :: d :: w) = none := by
  unfold attSpacing
  split
  · simp_all
  · rfl

theorem H_of_spacingSafe (b : List Char) (hsafe : spacingSafe b = true)
    (p : Option Char) (r : List Char) (i : Nat) (hi : i < b.length) :
    attSpacing p (List.drop i b ++ r) = none := by
  have hs := List.all_eq_true.mp hsafe i (List.mem_range.mpr hi)
  rw [drop_cons_of_lt b i hi, List.cons_append]
  rcases Bool.or_eq_true_iff.mp hs with hne | hnext
  · refine attSpacing_none_head p _ _ (fun h => ?_)
    rw [List.getElem?_eq_getElem hi] at hne
    simp [h] at hne
  · simp only [Bool.and_eq_true, decide_eq_true_eq] at hnext
    obtain ⟨hi1, hne1⟩ := hnext
    by_cases hc : b[i] = ']'
    · rw [hc]
      rw [drop_cons_of_lt b (i+1) hi1, List.cons_append]
      refine attSpacing_none_snd p _ _ (fun h => ?_)
      rw [List.getElem?_eq_getElem hi1] at hne1
      simp [h] at hne1
    · exact attSpacing_none_head p _ _ hc

theorem attEmptyTag_none_head (p : Option Char) (c : Char) (w : List Char)
    (hc : ¬ c = '[') : attEmptyTag p (c :: w) = none := by
  unfold attEmptyTag
  split
  · simp_all
  · rfl

theorem attNl_none_small (p : Option Char) (xs : List Char)
    (h : countRun '\n' xs < 3) : attNl p xs = none := by
  unfold attNl
  simp only []
  rw [if_neg (by omega)]

theorem H_of_nlSafe (b : List Char) (hsafe : nlSafe b = true)
    (p : Option Char) (r : List Char) (hr : tailOkB r = true)
    (i : Nat) (hi : i < b.length) :
    attNl p (List.drop i b ++ r) = none := by
  have hs := List.all_eq_true.mp hsafe i (List.mem_range.mpr hi)
  apply attNl_none_small
  rcases Bool.or_eq_true_iff.mp hs with hne | hlt
  · have hb0 : b[i] ≠ '\n' := by
      rw [List.getElem?_eq_getElem hi] at hne
      intro h
      simp [h] at hne
    have : countRun '\n' (List.drop i b ++ r) = 0 := by
      rw [drop_cons_of_lt b i hi, List.cons_append]
      simp [countRun, List.takeWhile_cons, hb0]
    omega
  · have hlt' : countRun '\n' (b.drop i) < 3 := by simpa using hlt
    by_cases hstop : countRun '\n' (b.drop i) < (b.drop i).length
    · rw [countRun_append_stop _ _ _ hstop]
      exact hlt'
    · have hle : countRun '\n' (b.drop i) ≤ (b.drop i).length :=
        (List.takeWhile_prefix _).length_le
      have heq : countRun '\n' (b.drop i) = (b.drop i).length := by omega
      rw [countRun_append_all _ _ _ heq, countRun_tailOk r hr]
      omega

theorem H_of_emptySafe (b : List Char) (hsafe : emptySafe b = true)
    (p : Option Char) (r : List Char) (i : Nat) (hi : i < b.length) :
    attEmptyTag p (List.drop i b ++ r) = none := by
  have hs := List.all_eq_true.mp hsafe i (List.mem_range.mpr hi)
  rw [drop_cons_of_lt b i hi, List.cons_append]
  by_cases hc : b[i] = '['
  · rw [hc]
    rcases Bool.or_eq_true_iff.mp hs with hne | hcond
    · rw [List.getElem?_eq_getElem hi] at hne
      simp [hc] at hne
    · simp only [Bool.and_eq_true, decide_eq_true_eq] at hcond
      obtain ⟨hlt, hne⟩ := hcond
      have hne' : (List.drop (i+1) b)[countWs (List.drop (i+1) b)]? ≠ some ']' := by
        simpa using hne
      unfold attEmptyTag
      have hw : countWs (List.drop (i+1) b ++ r) = countWs (List.drop (i+1) b) :=
        countWs_append_stop _ _ hlt
      show (match (List.drop (i+1) b ++ r)[countWs (List.drop (i+1) b ++ r)]? with
        | some ']' => some (([] : List Char), countWs (List.drop (i+1) b ++ r) + 2)
        | _ => none) = none
      rw [hw]
      rw [List.getElem?_append_left hlt]
      split
      · simp_all
      · rfl
  · exact attEmptyTag_none_head p _ _ hc

theorem attDup_none_head (p : Option Char) (c : Char) (w : List Char)
    (hc : ¬ c = '[') : attDup p (c :: w) = none := by
  unfold attDup
  split
  · simp_all
  · rfl

theorem dupReps_zero (group : List Char) (f : Nat) (xs : List Char)
    (h : matchesLit false ('[' :: group ++ [']'])
        (xs.drop (countWs xs)) = false) :
    dupReps group f xs = 0 := by
  cases f with
  | zero => rfl
  | succ f =>
    unfold dupReps
    simp only []
    rw [h]
    simp

theorem H_of_dupSafe (b : List Char) (hsafe : dupSafe b = true)
    (p : Option Char) (r : List Char) (hr : tailOkB r = true)
    (i : Nat) (hi : i < b.length) :
    attDup p (List.drop i b ++ r) = none := by
  have hs := List.all_eq_true.mp hsafe i (List.mem_range.mpr hi)
  unfold dupSafeAt at hs
  rw [drop_cons_of_lt b i hi] at hs
  rw [drop_cons_of_lt b i hi, List.cons_append]
  by_cases hc : b[i] = '['
  case neg => exact attDup_none_head p _ _ hc
  case pos =>
    rw [hc] at hs ⊢
    generalize hrB : List.drop (i + 1) b = restB at hs ⊢
    simp only [] at hs
    unfold attDup
    simp only []
    by_cases hge : (restB.takeWhile (fun c => c ≠ ']')).isEmpty = true
    · -- empty group inside b: the head of restB is a `]`
      rw [if_pos hge] at hs
      cases hrB2 : restB with
      | nil => simp at hs; exact absurd hrB2 hs
      | cons d rest' =>
        have hd : d = ']' := by
          by_contra hd
          rw [hrB2, List.takeWhile_cons] at hge
          simp [hd] at hge
        subst hd
        have htw : ((']' :: rest' ++ r).takeWhile (fun c => (c ≠ ']' : Bool)))
            = [] := by
          simp [List.takeWhile_cons]
        simp only [List.cons_append, htw]
        simp
    · rw [if_neg hge] at hs
      have hclose : (restB.drop
          ((restB.takeWhile (fun c => c ≠ ']')).length)).head? = some ']' := by
        by_contra hcl
        rw [if_neg hcl] at hs
        simp at hs
      rw [if_pos hclose] at hs
      generalize hG : restB.takeWhile (fun c => c ≠ ']') = group at hs hclose hge
      have hgl : group.length < restB.length := by
        by_contra hgl
        have : restB.drop group.length = [] :=
          List.drop_eq_nil_iff.mpr (by omega)
        rw [this] at hclose
        simp at hclose
      have hgstop : (restB.takeWhile (fun c => c ≠ ']')).length < restB.length := by
        rw [hG]; exact hgl
      have hg' : (restB ++ r).takeWhile (fun c => c ≠ ']') = group := by
        rw [takeWhile_append_stop _ _ _ hgstop, hG]
      rw [hg']
      rw [if_neg (by simp_all)]
      have hdropEq : (restB ++ r).drop group.length
          = restB.drop group.length ++ r :=
        List.drop_append_of_le_length (Nat.le_of_lt hgl)
      obtain ⟨u', hu'⟩ : ∃ t, restB.drop group.length = ']' :: t := by
        cases hu : restB.drop group.length with
        | nil => rw [hu] at hclose; simp at hclose
        | cons a t =>
          rw [hu] at hclose
          simp at hclose
          exact ⟨t, by rw [hclose]⟩
      rw [hdropEq, hu']
      show (match (']' :: (u' ++ r)).head? with
        | some ']' =>
          let after := (restB ++ r).drop (group.length + 1)
          let reps := dupReps group after.length after
          if reps = 0 then none
          else some ('[' :: group ++ [']'], 1 + group.length + 1 + reps)
        | _ => none) = none
      simp only [List.head?_cons]
      have hafter : (restB ++ r).drop (group.length + 1)
          = restB.drop (group.length + 1) ++ r :=
        List.drop_append_of_le_length (by omega)
      have hreps : dupReps group ((restB ++ r).drop (group.length + 1)).length
          ((restB ++ r).drop (group.length + 1)) = 0 := by
        apply dupReps_zero
        rw [hafter]
        generalize hA : restB.drop (group.length + 1) = afterB at hs ⊢
        by_cases hwend : countWs afterB = afterB.length
        · rw [countWs_append_all _ _ hwend]
          rw [show (afterB ++ r).drop (afterB.length + countWs r)
              = r.drop (countWs r) from by rw [List.drop_append]]
          cases hr' : r with
          | nil => simp [matchesLit]
          | cons c' w' =>
            rw [hr'] at hr
            simp only [tailOkB, Bool.and_eq_true] at hr
            have hcw : countWs (c' :: w') = 0 := by
              have hns : isPySpace c' = false := by simpa using hr.1.1
              simp [countWs, List.takeWhile_cons, hns]
            rw [hcw, List.drop_zero]
            apply matchesLit_false_head
            intro hcc
            have : ¬ (c' = '[') := by simpa using hr.1.2
            exact this hcc.symm
        · have hwlt : countWs afterB < afterB.length := by
            have := (List.takeWhile_prefix (p := isPySpace) (l := afterB)).length_le
            unfold countWs at hwend ⊢
            omega
          rw [if_neg hwend] at hs
          rw [countWs_append_stop _ _ hwlt]
          rw [List.drop_append_of_le_length (Nat.le_of_lt hwlt)]
          exact kwFailsIn_matchesLit _ _ _ _ hs
      rw [hreps]
      simp

theorem reSubF_head_cons (att : ReAtt) (f : Nat) (p : Option Char) (c : Char)
    (cs : List Char) (h : att p (c :: cs) = none) (hf : 1 ≤ f) :
    reSubF att f p (c :: cs) = c :: reSubF att (f - 1) (some c) cs := by
  cases f with
  | zero => omega
  | succ f =>
    rw [reSubF, h]
    simp

theorem charFree_append (c : Char) (x y : List Char) (hx : charFree c x = true)
    (hy : charFree c y = true) : charFree c (x ++ y) = true := by
  simp [charFree] at hx hy ⊢
  exact ⟨hx, hy⟩

theorem pyStripL_append_ex (u v : List Char) (x : Char) (hx : x ∈ u)
    (hxw : isPySpace x = false) : pyStripL (u ++ v) = pyStripL u ++ v := by
  induction u with
  | nil => simp at hx
  | cons c u ih =>
    rw [List.cons_append, pyStripL, pyStripL]
    by_cases hc : isPySpace c = true
    · rw [if_pos hc, if_pos hc]
      rcases List.mem_cons.mp hx with rfl | hxu
      · rw [hc] at hxw; cases hxw
      · exact ih hxu
    · rw [if_neg hc, if_neg hc]
      rfl

theorem pyStripL_cons_keep (c : Char) (w : List Char)
    (hc : isPySpace c = false) : pyStripL (c :: w) = c :: w := by
  rw [pyStripL, if_neg (by simp [hc])]

theorem pyStripL_append_last (u : List Char) (c : Char)
    (hc : isPySpace c = false) : ∃ t, pyStripL (u ++ [c]) = t ++ [c] := by
  induction u with
  | nil =>
    refine ⟨[], ?_⟩
    rw [List.nil_append, pyStripL]
    rw [if_neg (by simp [hc])]
  | cons d u ih =>
    rw [List.cons_append, pyStripL]
    by_cases hd : isPySpace d = true
    · rw [if_pos hd]; exact ih
    · rw [if_neg hd]; exact ⟨d :: u, rfl⟩

/-- `pyStripList` keeps a cons head when the head is not whitespace. -/
theorem pyStripList_cons (c : Char) (w : List Char) (hc : isPySpace c = false) :
    ∃ t, pyStripList (c :: w) = c :: t := by
  unfold pyStripList
  rw [show (c :: w).reverse = w.reverse ++ [c] from by simp]
  obtain ⟨t, ht⟩ := pyStripL_append_last w.reverse c hc
  rw [ht]
  rw [show (t ++ [c]).reverse = c :: t.reverse from by simp]
  rw [pyStripL_cons_keep c _ hc]
  exact ⟨_, rfl⟩

/-- `pyStripList` keeps a non-whitespace-headed prefix when the tail
contains a non-whitespace character. -/
theorem pyStripList_keep (c : Char) (B t : List Char)
    (hc : isPySpace c = false) (x : Char) (hx : x ∈ t)
    (hxw : isPySpace x = false) :
    ∃ t', pyStripList ((c :: B) ++ t) = (c :: B) ++ t' := by
  unfold pyStripList
  rw [List.reverse_append]
  rw [pyStripL_append_ex t.reverse (c :: B).reverse x (by simp [hx]) hxw]
  rw [List.reverse_append, List.reverse_reverse]
  rw [show (c :: B) ++ (pyStripL t.reverse).reverse
      = c :: (B ++ (pyStripL t.reverse).reverse) from rfl]
  rw [pyStripL_cons_keep c _ hc]
  exact ⟨_, rfl⟩

/-- One substitution pass keeps the prefix `B` and the head `c` of the
remainder, given in-prefix failure for the actual tail and failure at the
head of the remainder. -/
theorem pass_keep_head (att : ReAtt) (B : List Char) (c : Char)
    (bt u : List Char)
    (HB : ∀ (q : Option Char) (i : Nat), i < B.length →
      att q (List.drop i B ++ ((c :: bt) ++ u)) = none)
    (hpos0 : ∀ (q : Option Char), att q ((c :: bt) ++ u) = none) :
    ∃ u', pyReSub att (B ++ ((c :: bt) ++ u)) = B ++ (c :: u') := by
  unfold pyReSub
  rw [reSubF_split att B _ none ((c :: bt) ++ u)
    (by simp) (fun i hi => HB _ i hi)]
  rw [show ((c :: bt) ++ u) = c :: (bt ++ u) from rfl]
  rw [reSubF_head_cons att _ _ c (bt ++ u)
    (by
      have := hpos0 (prevAt none B B.length)
      rwa [show ((c :: bt) ++ u) = c :: (bt ++ u) from rfl] at this)
    (by simp only [List.length_append, List.length_cons]; omega)]
  exact ⟨_, rfl⟩

/-- One substitution pass keeps the whole prefix `Bb`, given in-prefix
failure for the actual tail. -/
theorem pass_keep_all (att : ReAtt) (Bb u : List Char)
    (HB : ∀ (q : Option Char) (i : Nat), i < Bb.length →
      att q (List.drop i Bb ++ u) = none) :
    ∃ u', pyReSub att (Bb ++ u) = Bb ++ u' := by
  unfold pyReSub
  rw [reSubF_split att Bb _ none u (by simp)
    (fun i hi => HB _ i hi)]
  exact ⟨_, rfl⟩

theorem attLit_none_head (ci : Bool) (pat rep : List Char) (q : Option Char)
    (c : Char) (w : List Char) (hk : kwFailsIn ci pat [c] = true) :
    attLit ci pat rep q (c :: w) = none := by
  unfold attLit
  rw [show (c :: w) = [c] ++ w from rfl,
    kwFailsIn_matchesLit ci pat [c] w hk]
  simp

theorem kwFailsIn_bracket_head (ci : Bool) (ps : List Char) (c : Char)
    (hc : (!(pyLowerC c = '[') && !(c = '[')) = true) :
    kwFailsIn ci ('[' :: ps) [c] = true := by
  simp only [Bool.and_eq_true] at hc
  rw [kwFailsIn]
  have h1 : ¬ pyLowerC c = '[' := by simpa using hc.1
  have h2 : ¬ c = '[' := by simpa using hc.2
  cases ci
  · have h4 : ¬ ('[' = c) := fun h => h2 h.symm
    simp [h4]
  · have h3 : pyLowerC ('[' : Char) = '[' := rfl
    have h4 : ¬ ('[' = pyLowerC c) := fun h => h1 h.symm
    simp [h3, h4]

theorem attNl_none_head (q : Option Char) (c : Char) (w : List Char)
    (hc : ¬ c = '\n') : attNl q (c :: w) = none := by
  apply attNl_none_small
  simp [countRun, List.takeWhile_cons, hc]

/-- The head conditions packaged by `baseSafe`. -/
theorem baseSafe_head (base : String) (hb : baseSafe base = true) :
    ∃ c bt, base.data = c :: bt ∧ isPySpace c = false ∧ ¬ c = '[' ∧
      ¬ c = ']' ∧ ¬ c = '`' ∧ ¬ c = '*' ∧ ¬ pyLowerC c = '[' ∧ ¬ c = '\n' := by
  unfold baseSafe at hb
  cases hd : base.data with
  | nil => rw [hd] at hb; simp at hb
  | cons c bt =>
    rw [hd] at hb
    simp only [Bool.and_eq_true] at hb
    obtain ⟨-, h2⟩ := hb
    refine ⟨c, bt, rfl, by simpa using h2.1.1.1.1.1.1,
      by simpa using h2.1.1.1.1.1.2, by simpa using h2.1.1.1.1.2,
      by simpa using h2.1.1.1.2, by simpa using h2.1.1.2,
      by simpa using h2.1.2, by simpa using h2.2⟩

/-- One `structPass` keeps the safe prefix and the head of the tail. -/
theorem structPass_keep (B : List Char) (c : Char) (t : String) (u : List Char)
    (h1 : litSafe true ('[' :: pyLowerL t.data ++ [']']) B = true)
    (h2 : litSafe false ('[' :: t.data.map pyUpperC ++ [']']) B = true)
    (hc : (!(pyLowerC c = '[') && !(c = '[')) = true) :
    ∃ u', structPass t (B ++ (c :: u)) = B ++ (c :: u') := by
  simp only [structPass]
  obtain ⟨u1, hu1⟩ := pass_keep_head (attLit true ('[' :: pyLowerL t.data ++ [']'])
      ('[' :: t.data ++ [']'])) B c [] u
    (fun q i hi => H_of_litSafe _ _ _ _ h1 q _ i hi)
    (fun q => attLit_none_head _ _ _ q c u
      (kwFailsIn_bracket_head _ _ c hc))
  rw [show ((c :: []) ++ u) = c :: u from rfl] at hu1
  rw [hu1]
  obtain ⟨u2, hu2⟩ := pass_keep_head (attLit false ('[' :: t.data.map pyUpperC ++ [']'])
      ('[' :: t.data ++ [']'])) B c [] u1
    (fun q i hi => H_of_litSafe _ _ _ _ h2 q _ i hi)
    (fun q => attLit_none_head _ _ _ q c u1
      (kwFailsIn_bracket_head _ _ c hc))
  rw [show ((c :: []) ++ u1) = c :: u1 from rfl] at hu2
  exact ⟨u2, hu2⟩

theorem vocalPass_keep (B : List Char) (c : Char) (t : String) (u : List Char)
    (h1 : litSafe true ('[' :: pyLowerL t.data ++ [']']) B = true)
    (hc : (!(pyLowerC c = '[') && !(c = '[')) = true) :
    ∃ u', vocalPass t (B ++ (c :: u)) = B ++ (c :: u') := by
  unfold vocalPass
  obtain ⟨u1, hu1⟩ := pass_keep_head (attLit true ('[' :: pyLowerL t.data ++ [']'])
      ('[' :: t.data ++ [']'])) B c [] u
    (fun q i hi => H_of_litSafe _ _ _ _ h1 q _ i hi)
    (fun q => attLit_none_head _ _ _ q c u
      (kwFailsIn_bracket_head _ _ c hc))
  rw [show ((c :: []) ++ u) = c :: u from rfl] at hu1
  exact ⟨u1, hu1⟩

theorem foldl_structPass_keep (tags : List String) (B : List Char) (c : Char)
    (htags : ∀ t ∈ tags,
      (litSafe true ('[' :: pyLowerL t.data ++ [']']) B &&
        litSafe false ('[' :: t.data.map pyUpperC ++ [']']) B) = true)
    (hc : (!(pyLowerC c = '[') && !(c = '[')) = true) :
    ∀ u, ∃ u', tags.foldl (fun a t => structPass t a) (B ++ (c :: u))
      = B ++ (c :: u') := by
  induction tags with
  | nil => intro u; exact ⟨u, rfl⟩
  | cons t ts ih =>
    intro u
    have ht := htags t (by simp)
    simp only [Bool.and_eq_true] at ht
    obtain ⟨u1, hu1⟩ := structPass_keep B c t u ht.1 ht.2 hc
    rw [List.foldl_cons, hu1]
    exact ih (fun x hx => htags x (by simp [hx])) u1

theorem foldl_vocalPass_keep (tags : List String) (B : List Char) (c : Char)
    (htags : ∀ t ∈ tags,
      litSafe true ('[' :: pyLowerL t.data ++ [']']) B = true)
    (hc : (!(pyLowerC c = '[') && !(c = '[')) = true) :
    ∀ u, ∃ u', tags.foldl (fun a t => vocalPass t a) (B ++ (c :: u))
      = B ++ (c :: u') := by
  induction tags with
  | nil => intro u; exact ⟨u, rfl⟩
  | cons t ts ih =>
    intro u
    obtain ⟨u1, hu1⟩ := vocalPass_keep B c t u (htags t (by simp)) hc
    rw [List.foldl_cons, hu1]
    exact ih (fun x hx => htags x (by simp [hx])) u1

/-- Witness for C4 (amended): a run in which the sanitized lyrics do not
contain `"[Style:"`, so the header is prepended. -/
theorem C4_witness :
    substrOf "[Style:" (validate_suno_tags "la la") = false ∧
    ({ style_prompt := "modern pop, polished production, catchy hooks, synth bass, programmed drums"
       title := "T"
       lyrics := "[Style: Female Vocal, pop]\n[Duration: 2:30min]\n[BPM: 120]\n\nla la"
       backend_used := "groq" } : SuccessRec).lyrics
      = String.mk (stripStrayL ("[Style: " ++ "Female" ++ " Vocal, " ++ "pop" ++
          "]\n[Duration: " ++ "2:30min" ++ "]\n" ++
          (if pyUpper "120" ≠ "AUTO" then "[BPM: " ++ "120" ++ "]" else "") ++
          "\n\n").data) ++ validate_suno_tags "la la" :=
  ⟨rfl, (C4_amended_contains_gate "Female" "pop" "2:30min" "120"
      "modern pop, polished production, catchy hooks, synth bass, programmed drums"
      "T" "la la" _ rfl).1 rfl⟩

/-! ### C8: the MAX block survives sanitization as a literal prefix -/

/-- `pyStripList` keeps a prefix whose head is not whitespace (or is empty)
followed by a non-whitespace character. -/
theorem pyStripList_keep_head (B : List Char) (c : Char) (u : List Char)
    (hBh : (match B with | [] => true | d :: _ => !isPySpace d) = true)
    (hc : isPySpace c = false) :
    ∃ t, pyStripList (B ++ (c :: u)) = B ++ (c :: t) := by
  have hrev : (B ++ (c :: u)).reverse = (u.reverse ++ [c]) ++ B.reverse := by
    simp
  obtain ⟨t, ht⟩ := pyStripL_append_last u.reverse c hc
  have h2 : pyStripL ((u.reverse ++ [c]) ++ B.reverse)
      = (t ++ [c]) ++ B.reverse := by
    rw [pyStripL_append_ex (u.reverse ++ [c]) B.reverse c (by simp) hc, ht]
  have h3 : ((t ++ [c]) ++ B.reverse).reverse = B ++ (c :: t.reverse) := by
    simp
  unfold pyStripList
  rw [hrev, h2, h3]
  cases B with
  | nil =>
    rw [List.nil_append, pyStripL_cons_keep c _ hc]
    exact ⟨t.reverse, rfl⟩
  | cons d B2 =>
    have hd : isPySpace d = false := by simpa using hBh
    rw [List.cons_append, pyStripL_cons_keep d _ hd]
    exact ⟨t.reverse, rfl⟩

/-- Every base description the style table can produce is in
`allStyleBases`. -/
theorem gsp_base_mem (genre : String) :
    generate_style_prompt genre "AUTO" ARTIST_STYLE_GUIDE ∈ allStyleBases := by
  have hAuto : pyUpper "AUTO" = "AUTO" := rfl
  simp only [generate_style_prompt, hAuto, ne_eq, not_true_eq_false, if_false]
  cases hf : ARTIST_STYLE_GUIDE.find?
      (fun p => substrOf p.1 (pyLower (pyStrip genre)) ||
        substrOf (pyLower (pyStrip genre)) p.1) with
  | some p =>
    have hp : p ∈ ARTIST_STYLE_GUIDE := List.mem_of_find?_eq_some hf
    simp only [allStyleBases, List.mem_append, List.mem_map]
    exact Or.inl (Or.inl ⟨p, hp, by simp⟩)
  | none =>
    cases hg : style_templates.find?
        (fun p => substrOf p.1 (pyLower (pyStrip genre))) with
    | some p =>
      have hp : p ∈ style_templates := List.mem_of_find?_eq_some hg
      simp only [allStyleBases, List.mem_append, List.mem_map]
      exact Or.inl (Or.inr ⟨p, hp, by simp⟩)
    | none =>
      simp [allStyleBases]

/-- The style text is a table base plus the conditional BPM clause. -/
theorem gsp_shape (genre bpm : String) :
    ∃ base ∈ allStyleBases,
      generate_style_prompt genre bpm ARTIST_STYLE_GUIDE
        = base ++ (if pyUpper bpm = "AUTO" then "" else ", BPM: " ++ bpm) :=
  ⟨generate_style_prompt genre "AUTO" ARTIST_STYLE_GUIDE, gsp_base_mem genre,
    gsp_factor genre bpm ARTIST_STYLE_GUIDE⟩

theorem allStyleBases_safe : ∀ b ∈ allStyleBases, baseSafe b = true := by
  decide

theorem blockSafe_nil : blockSafe ([] : List Char) = true := by decide

theorem blockSafe_max : blockSafe (MAX_MODE_TAGS ++ "\n").data = true := by
  decide

/-- The sanitizer chain: a `blockSafe` prefix followed by a `baseSafe` base
description survives `validateL` verbatim through all eleven stages, for
every tail, and is still followed by the base head character. -/
theorem validateL_chain (B : List Char) (base : String) (rest : List Char)
    (hB : blockSafe B = true) (hb : baseSafe base = true) :
    ∃ c u, base.data.head? = some c ∧
      validateL (B ++ (base.data ++ rest)) = B ++ (c :: u) := by
  obtain ⟨c, bt, hdata, hws, hbr, hrb, hbt, hst, hlb, hnl⟩ := baseSafe_head base hb
  have hb2 := hb
  unfold baseSafe at hb2
  simp only [Bool.and_eq_true] at hb2
  obtain ⟨⟨⟨⟨hbns, hbcb⟩, hbbd⟩, hkws⟩, -⟩ := hb2
  have hB2 := hB
  unfold blockSafe at hB2
  simp only [Bool.and_eq_true] at hB2
  obtain ⟨⟨⟨⟨⟨⟨⟨⟨⟨⟨hns, hcb⟩, hbd⟩, hen⟩, hstr⟩, hvoc⟩, hdup⟩, hsp⟩, hemp⟩, hnlS⟩, hBh⟩ := hB2
  have hcbool : (!(pyLowerC c = '[') && !(c = '[')) = true := by
    simp [hlb, hbr]
  have htail : ∀ u : List Char, tailOkB ((c :: []) ++ u) = true := by
    intro u
    simp [tailOkB, hws, hbr, hrb]
  have hfB : B.filter (fun x => !isStray x) = B :=
    List.filter_eq_self.mpr (fun a ha => List.all_eq_true.mp hns a ha)
  have hfb : base.data.filter (fun x => !isStray x) = base.data :=
    List.filter_eq_self.mpr (fun a ha => List.all_eq_true.mp hbns a ha)
  have e1 : stripStrayL (B ++ (base.data ++ rest))
      = (B ++ base.data) ++ stripStrayL rest := by
    unfold stripStrayL
    rw [List.filter_append, List.filter_append, hfB, hfb, ← List.append_assoc]
  have hfree1 : charFree '`' (B ++ base.data) = true :=
    charFree_append _ _ _ hcb hbcb
  have hfree2 : charFree '*' (B ++ base.data) = true :=
    charFree_append _ _ _ hbd hbbd
  obtain ⟨u2, e2⟩ := pass_keep_all attCodeBlock (B ++ base.data) (stripStrayL rest)
    (fun q i hi => H_of_charFree_cb (B ++ base.data) hfree1 q _ i hi)
  obtain ⟨u3, e3⟩ := pass_keep_all attBold (B ++ base.data) u2
    (fun q i hi => H_of_charFree_bold (B ++ base.data) hfree2 q _ i hi)
  obtain ⟨u4, e4⟩ := pass_keep_head attEnergy B c bt u3
    (fun q i hi => H_of_energySafe B hen q _ i hi)
    (fun q => by
      rw [show ((c :: bt) ++ u3 : List Char) = base.data ++ u3 from by rw [hdata]]
      exact attEnergy_none_of_kws q base.data u3 hkws)
  rw [← hdata] at e4
  obtain ⟨u5, e5⟩ := foldl_structPass_keep SUNO_STRUCTURE B c
    (fun t ht => List.all_eq_true.mp hstr t ht) hcbool u4
  obtain ⟨u6, e6⟩ := foldl_vocalPass_keep
    (SUNO_VOCALS ++ SUNO_DELIVERY ++ SUNO_EFFECTS) B c
    (fun t ht => List.all_eq_true.mp hvoc t ht) hcbool u5
  obtain ⟨u7, e7⟩ := pass_keep_head attDup B c [] u6
    (fun q i hi => H_of_dupSafe B hdup q _ (htail u6) i hi)
    (fun q => attDup_none_head q c u6 hbr)
  rw [show ((c :: []) ++ u6 : List Char) = c :: u6 from rfl] at e7
  obtain ⟨u8, e8⟩ := pass_keep_head attSpacing B c [] u7
    (fun q i hi => H_of_spacingSafe B hsp q _ i hi)
    (fun q => attSpacing_none_head q c u7 hrb)
  rw [show ((c :: []) ++ u7 : List Char) = c :: u7 from rfl] at e8
  obtain ⟨u9, e9⟩ := pass_keep_head attEmptyTag B c [] u8
    (fun q i hi => H_of_emptySafe B hemp q _ i hi)
    (fun q => attEmptyTag_none_head q c u8 hbr)
  rw [show ((c :: []) ++ u8 : List Char) = c :: u8 from rfl] at e9
  obtain ⟨u10, e10⟩ := pass_keep_head attNl B c [] u9
    (fun q i hi => H_of_nlSafe B hnlS q _ (htail u9) i hi)
    (fun q => attNl_none_head q c u9 hnl)
  rw [show ((c :: []) ++ u9 : List Char) = c :: u9 from rfl] at e10
  obtain ⟨u11, e11⟩ := pyStripList_keep_head B c u10 hBh hws
  refine ⟨c, u11, by rw [hdata]; rfl, ?_⟩
  simp only [validateL]
  rw [e1, e2, e3, List.append_assoc, e4, e5, e6, e7, e8, e9, e10, e11]

theorem matchesLit_false_of_head_ne (k z : List Char)
    (hk : k.head? = some '[') (c : Char) (hc : ¬ c = '[') :
    matchesLit false k (c :: z) = false := by
  cases k with
  | nil => simp at hk
  | cons a as =>
    have ha : a = '[' := by simpa using hk
    subst ha
    exact matchesLit_false_head _ _ _ _ (fun h => hc h.symm)

/-- The sanitized style text of a success: a `blockSafe` prepended block
survives verbatim and is followed by the (non-`[`) head character of the
selected table base. -/
theorem style_sanitized_shape (strB genre bpm : String) (r : SuccessRec)
    (hblock : blockSafe strB.data = true)
    (hs : r.style_prompt = validate_suno_tags
      (strB ++ generate_style_prompt genre bpm ARTIST_STYLE_GUIDE)) :
    ∃ c u, ¬ c = '[' ∧ r.style_prompt.data = strB.data ++ (c :: u) := by
  obtain ⟨base, hmem, hgsp⟩ := gsp_shape genre bpm
  have hbase : baseSafe base = true := allStyleBases_safe base hmem
  obtain ⟨c0, bt, hdata, hws, hbr, hrb, hbt, hst, hlb, hnl⟩ :=
    baseSafe_head base hbase
  have hspdata : (strB ++ generate_style_prompt genre bpm
        ARTIST_STYLE_GUIDE).data
      = strB.data ++ (base.data ++
          (if pyUpper bpm = "AUTO" then "" else ", BPM: " ++ bpm).data) := by
    rw [hgsp, String.data_append, String.data_append]
  have hne : strB ++ generate_style_prompt genre bpm ARTIST_STYLE_GUIDE
      ≠ "" := by
    intro heq
    have hd : (strB ++ generate_style_prompt genre bpm
        ARTIST_STYLE_GUIDE).data = [] := by rw [heq]
    rw [hspdata, hdata] at hd
    simp at hd
  obtain ⟨c, u, hc, hval⟩ := validateL_chain strB.data base
    (if pyUpper bpm = "AUTO" then "" else ", BPM: " ++ bpm).data
    hblock hbase
  have hcc : c0 = c := by
    rw [hdata] at hc
    simpa using hc
  have hva : validate_suno_tags
      (strB ++ generate_style_prompt genre bpm ARTIST_STYLE_GUIDE)
      = String.mk (validateL (strB ++ generate_style_prompt genre bpm
          ARTIST_STYLE_GUIDE).data) := by
    unfold validate_suno_tags
    rw [if_neg hne]
  refine ⟨c, u, fun h => hbr (hcc ▸ h), ?_⟩
  rw [hs, hva, hspdata, hval]

/-- **C8** — the claim states that with `max_mode` the success result's
style text begins with the MAX-mode metadata block verbatim (preserved
through sanitization), and that without `max_mode` the block does not
appear.  The second half is refuted by `C8_counterexample` (a user bpm
containing the block injects it as a substring); the dichotomy that holds
is about the *prefix*: every success's style text begins with the block
exactly when `max_mode` was requested. -/
theorem C8_amended_block_prefix (key : Option String) (cfg : GenConfig)
    (mm vd : Bool) (net : NetOutcome) (r : SuccessRec)
    (h : (generate_suno_prompt key cfg mm vd net).1 = Except.ok (.ok r)) :
    matchesLit false MAX_MODE_TAGS.data r.style_prompt.data = mm := by
  obtain ⟨tt, lv, hp⟩ := gen_ok_shape key cfg mm vd net r h
  have hs := (processLyrics_ok_shape _ _ _ _ _ _ _ _ hp).1
  have hblock : blockSafe
      ((if mm then MAX_MODE_TAGS ++ "\n" else "" : String)).data = true := by
    cases mm
    · exact blockSafe_nil
    · exact blockSafe_max
  obtain ⟨c, u, hcne, hrd⟩ := style_sanitized_shape
    (if mm then MAX_MODE_TAGS ++ "\n" else "")
    (pyStrip (cfg.genre.getD "")) (pyStrip (cfg.bpm.getD "AUTO")) r
    hblock hs
  rw [hrd]
  cases mm
  · have hmaxhead : MAX_MODE_TAGS.data.head? = some '[' := by decide
    show matchesLit false MAX_MODE_TAGS.data (c :: u) = false
    exact matchesLit_false_of_head_ne _ _ hmaxhead c hcne
  · show matchesLit false MAX_MODE_TAGS.data
      ((MAX_MODE_TAGS ++ "\n").data ++ (c :: u)) = true
    rw [String.data_append, List.append_assoc]
    exact matchesLit_self _ _

/-- Witness for C8 (amended): a concrete MAX-mode success whose style text
begins with the metadata block, obtained from a full run. -/
theorem C8_witness :
    matchesLit false MAX_MODE_TAGS.data
      ({ style_prompt := "[Is_MAX_MODE: MAX]\n[QUALITY: MASTERING_GRADE]\n[REALISM: STUDIO_RECORDING]\n[REAL_INSTRUMENTS: TRUE]\n[AUDIO_SPEC: 24-bit_96kHz_WIDE_STEREO]\n[PRODUCTION: PROFESSIONAL_MIX]\nmodern pop, polished production, catchy hooks, synth bass, programmed drums"
         title := "Neon Drift"
         lyrics := "[Style: Male Vocal, pop]\n[Duration: 2:30min]\n\n\n[Verse]\nhello"
         backend_used := "groq" } : SuccessRec).style_prompt.data = true :=
  C8_amended_block_prefix (some "k")
    { genre := some "pop", topic := some "love" } true true
    (.reply "\x7b\"title\": \"Neon Drift\", \"lyrics\": \"[Verse]\\nhello\"\x7d")
    _ rfl

end Suno
